import Mathlib

/-!
Verification of the Numerov bound-state solver.

This file gives a shallow embedding of the numerical core of the
quantum-bound-states repository: the uniform spatial grid (`XGrid`), the
forward Numerov integrator (`NumerovIntegrator.integrate`), the symmetric
half-domain integrator (`SymmetricNumerovIntegrator.integrateFromCenter`,
whose only implementation in the repository is the one embedded in
`src/js/common/model/TEST_RESULTS.md`), the bisection energy refiner
(`EnergyRefiner.refine`), the wavefunction normalizer and the orchestrating
shooting-method search (`NumerovSolverClass`).

Modelling conventions:
* JavaScript IEEE-754 numbers are modelled by an arbitrary linearly ordered
  field `K` (instantiated with `ℚ` or `ℝ`); rounding, overflow to `Infinity`
  and `NaN` are outside the model, except where noted below.
* The three transcendental library functions used by the code
  (`Math.sqrt`, `Math.sin`, `Math.exp`) are abstracted into a `MathModel`
  record of functions `K → K`; the intended instantiation over `ℝ` is
  `realMathModel`.  All theorems below are uniform in this record.
* Out-of-bounds array reads (which yield `undefined`, and then `NaN` under
  arithmetic, in JavaScript) are modelled with `Option`: `none` stands for
  a NaN result.
* The `while` loops of the refiner and of the energy scan are modelled with
  an explicit fuel parameter; a result of `none` means the loop did not
  finish within the given fuel.
* In the symmetric integrator the source guards with `!isFinite(ψ)`.  In
  exact real arithmetic a Numerov step produces a non-finite value exactly
  when its denominator `1 + f[j+1]` vanishes, so the guard is modelled as
  that test (float overflow above ~1.8e308 has no counterpart in an exact
  field).
-/

namespace QBS

variable {K : Type} [LinearOrderedField K]

/-- The three `Math.*` library functions the integrator seeds use. -/
structure MathModel (K : Type) where
  sqrt : K → K
  sin : K → K
  exp : K → K

/-- The intended interpretation of the `Math.*` functions over the reals. -/
noncomputable def realMathModel : MathModel ℝ :=
  ⟨Real.sqrt, Real.sin, Real.exp⟩

/-- A `MathModel` over `ℚ` usable for concrete evaluation in witnesses
(the theorems below hold for every interpretation of the three functions). -/
def ratMathModel : MathModel ℚ := ⟨id, id, id⟩

/-- JavaScript `Math.sign` (on finite inputs): `-1`, `0` or `1`. -/
def msign (x : K) : K :=
  if x < 0 then -1 else if 0 < x then 1 else 0

/-- JavaScript `Math.round`: round half toward positive infinity. -/
def jsRound [FloorRing K] (x : K) : ℤ :=
  ⌊x + 1 / 2⌋

/-- FundamentalConstants.HBAR = 1.054571817e-34 (J·s). -/
def HBAR : K := 1054571817 / 10 ^ 43

/-- NumerovBase.VERY_LARGE_VALUE = 1e300, the divergence threshold. -/
def VERY_LARGE_VALUE : K := 10 ^ 300

/-- XGrid: a uniformly spaced 1D spatial grid (xMin, xMax, numPoints).
The source constructor asserts numPoints ≥ 2 and xMax > xMin. -/
structure XGrid (K : Type) where
  xMin : K
  xMax : K
  numPoints : ℕ
deriving DecidableEq

/-- XGrid.getDx: grid spacing (xMax − xMin)/(numPoints − 1). -/
def XGrid.getDx (g : XGrid K) : K :=
  (g.xMax - g.xMin) / ((g.numPoints : K) - 1)

/-- XGrid.getLength: the number of grid points. -/
def XGrid.getLength (g : XGrid K) : ℕ := g.numPoints

/-- XGrid.getNumberOfPoints: the number of grid points (alias used by
EnergyRefiner). -/
def XGrid.getNumberOfPoints (g : XGrid K) : ℕ := g.numPoints

/-- XGrid.getArray: the ordered list of positions xMin + i·dx. -/
def XGrid.getArray (g : XGrid K) : List K :=
  (List.range g.numPoints).map fun i => g.xMin + (i : K) * g.getDx

/-- XGrid.findCenterIndex: round(−xMin·(numPoints−1)/(xMax−xMin)) clamped
to [0, numPoints−1]; the grid index nearest x = 0. -/
def XGrid.findCenterIndex [FloorRing K] (g : XGrid K) : ℕ :=
  let index := jsRound (-g.xMin * ((g.numPoints : K) - 1) / (g.xMax - g.xMin))
  (max 0 (min ((g.numPoints : ℤ) - 1) index)).toNat

/-- NumerovBase.calculateK2: k²(x_i) = 2m(E − V_i)/ℏ² for all grid points. -/
def calculateK2 (mass E : K) (V : List K) : List K :=
  V.map fun v => 2 * mass * (E - v) / (HBAR * HBAR)

/-- NumerovBase.calculateNumerovFactors: f_i = (dx²/12)·k²_i. -/
def calculateNumerovFactors (k2 : List K) (dx : K) : List K :=
  k2.map fun k => dx * dx / 12 * k

/-- NumerovBase.numerovStep:
ψ_{j+1} = [(2 − 10 f_j)ψ_j − (1 + f_{j−1})ψ_{j−1}] / (1 + f_{j+1}). -/
def numerovStep (psi_j psi_jMinus1 f_j f_jMinus1 f_jPlus1 : K) : K :=
  ((2 - 10 * f_j) * psi_j - (1 + f_jMinus1) * psi_jMinus1) / (1 + f_jPlus1)

/-- NumerovIntegrator.setInitialConditions, value of ψ₁: scale
s = 1/(N·√L) with L = N·dx; ψ₁ = s·sin(√(k²₁)·dx) in the classically
allowed case k²₁ ≥ 0, and ψ₁ = s·exp(−√|k²₁|·(L/2)) in the forbidden
case k²₁ < 0. -/
def initialSeed (M : MathModel K) (k2 : List K) (dx : K) (N : ℕ) : K :=
  let L := (N : K) * dx
  let psiScale := 1 / ((N : K) * M.sqrt L)
  if 0 ≤ k2.getD 1 0 then
    psiScale * M.sin (M.sqrt (k2.getD 1 0) * dx)
  else
    psiScale * M.exp (-(M.sqrt |k2.getD 1 0|) * (L / 2))

/-- NumerovIntegrator.integrateForward, producing the values
ψ_{j+1}, …, ψ_{N−1} given ψ_{j−1} and ψ_j.  The loop
`for (j = 1; j < N−1; j++)` is indexed here by the number `fuel` of
remaining iterations, which the caller sets to N − 2 so that
fuel = N − 1 − j at every step.  Each step applies `numerovStep`; if the
new value exceeds 1e300 in absolute value the remaining entries (there are
exactly `fuel + 1` of them, the indices j+1 .. N−1) are filled with that
signed value (fillDivergent) and the recurrence stops. -/
def integrateForwardFrom (f : List K) : ℕ → ℕ → K → K → List K
  | 0, _, _, _ => []
  | fuel + 1, j, pjm1, pj =>
    let v := numerovStep pj pjm1 (f.getD j 0) (f.getD (j - 1) 0) (f.getD (j + 1) 0)
    if VERY_LARGE_VALUE < |v| then
      List.replicate (fuel + 1) v
    else
      v :: integrateForwardFrom f fuel (j + 1) pj v

/-- NumerovIntegrator.integrate: forward Numerov integration over the whole
grid.  ψ₀ = 0, ψ₁ = the physically motivated seed, then the recurrence of
`integrateForwardFrom` for j = 1 .. N−2 (N − 2 loop iterations).  (The
source asserts V.length = N and the grid invariant N ≥ 2.) -/
def integrate (M : MathModel K) (mass E : K) (V : List K) (g : XGrid K) : List K :=
  let N := g.getLength
  let dx := g.getDx
  let k2 := calculateK2 mass E V
  let f := calculateNumerovFactors k2 dx
  let psi1 := initialSeed M k2 dx N
  0 :: psi1 :: integrateForwardFrom f (N - 2) 1 0 psi1

/-- NumerovSolverClass.getEndValue / EnergyRefiner.getEndValue: the
wavefunction value at the last grid point. -/
def getEndValue (psi : List K) (N : ℕ) : K :=
  psi.getD (N - 1) 0

/-- EnergyRefiner.haveSameSign: `Math.sign(value1) === Math.sign(value2)`. -/
def haveSameSign (value1 value2 : K) : Prop :=
  msign value1 = msign value2

instance (value1 value2 : K) : Decidable (haveSameSign value1 value2) := by
  unfold haveSameSign; infer_instance

/-- One iteration of the bisection loop body shared by
EnergyRefiner.refine and NumerovSolverClass.refineEnergySymmetric:
evaluate the end value at the midpoint; if it has the same `Math.sign`
as the end value at the low bound, replace the low bound by the
midpoint, otherwise replace the high bound. -/
def refineStep (endOf : K → K) (lo hi : K) : K × K :=
  let mid := (lo + hi) / 2
  if haveSameSign (endOf mid) (endOf lo) then (mid, hi) else (lo, mid)

/-- The bisection `while` loop (fuel-indexed): while `hi − lo > tol`
perform `refineStep`; on exit return the midpoint of the final bracket.
`none` means the fuel ran out before the loop condition failed. -/
def refineLoop (endOf : K → K) (tol : K) : ℕ → K → K → Option K
  | fuel, lo, hi =>
    if tol < hi - lo then
      match fuel with
      | 0 => none
      | fuel + 1 =>
        let p := refineStep endOf lo hi
        refineLoop endOf tol fuel p.1 p.2
    else
      some ((lo + hi) / 2)

/-- EnergyRefiner.refine: bisection refinement of an energy bracket
[E1, E2].  The options are `tolerance` (default 1e-4) and `isRel`
(isRelative, default true): when relative, the absolute tolerance is
tolerance · |E2 − E1|.  The end value of the forward integration at the
last grid point drives the sign comparison. -/
def refine (M : MathModel K) (mass tolerance : K) (isRel : Bool)
    (E1 E2 : K) (V : List K) (g : XGrid K) (fuel : ℕ) : Option K :=
  let N := g.getNumberOfPoints
  let absoluteTolerance := if isRel then tolerance * |E2 - E1| else tolerance
  refineLoop (fun E => getEndValue (integrate M mass E V g) N)
    absoluteTolerance fuel E1 E2

/-- Parity of a requested eigenstate for the symmetric integrator. -/
inductive Parity where
  | symmetric
  | antisymmetric
deriving DecidableEq

/-- SymmetricNumerovIntegrator.integrateForward: rightward recurrence from
the center producing ψ_{j+1}, …, ψ_{N−1}.  The source stops when the new
value is not finite (`!isFinite`) and fills the remaining entries with the
constant 1e100 (fillInfinity); in exact field arithmetic a step is
non-finite exactly when its denominator 1 + f_{j+1} vanishes. -/
def symIntegrateForward (f : List K) : ℕ → ℕ → K → K → List K
  | 0, _, _, _ => []
  | fuel + 1, j, pjm1, pj =>
    if 1 + f.getD (j + 1) 0 = 0 then
      List.replicate (fuel + 1) ((10 : K) ^ 100)
    else
      let v := numerovStep pj pjm1 (f.getD j 0) (f.getD (j - 1) 0) (f.getD (j + 1) 0)
      v :: symIntegrateForward f fuel (j + 1) pj v

/-- SymmetricNumerovIntegrator.integrateFromCenter: set parity initial
conditions at the center index c (ψ_c = 1, ψ_{c+1} = 1·(1 − 6 f_c) for the
symmetric parity; ψ_c = 0, ψ_{c+1} = dx for the antisymmetric parity),
integrate rightward with `symIntegrateForward`, then mirror the right half
onto the left half with the parity sign (applyParity); indices whose mirror
index falls outside the array keep their initial value 0. -/
def integrateFromCenter [FloorRing K] (mass E : K) (V : List K) (g : XGrid K)
    (parity : Parity) : List K :=
  let N := g.getLength
  let dx := g.getDx
  let centerIdx := g.findCenterIndex
  let k2 := calculateK2 mass E V
  let f := calculateNumerovFactors k2 dx
  let init0 : K := match parity with
    | .symmetric => 1
    | .antisymmetric => 0
  let init1 : K := match parity with
    | .symmetric => 1 * (1 - 6 * f.getD centerIdx 0)
    | .antisymmetric => dx
  let rightHalf := init0 :: init1 ::
    symIntegrateForward f (N - 1 - (centerIdx + 1)) (centerIdx + 1) init0 init1
  let paritySign : K := match parity with
    | .symmetric => 1
    | .antisymmetric => -1
  (List.range N).map fun i =>
    if i < centerIdx then
      if 2 * centerIdx - i < N then paritySign * rightHalf.getD (centerIdx - i) 0 else 0
    else rightHalf.getD (i - centerIdx) 0

/-- NumerovSolverClass.refineEnergySymmetric: bisection with the symmetric
integrator; the tolerance is the override when provided, else
1e-8 · |E2 − E1|.  The loop body is literally the same bisection loop. -/
def refineEnergySymmetric [FloorRing K] (mass : K) (E1 E2 : K) (V : List K)
    (g : XGrid K) (parity : Parity) (toleranceOverride : Option K)
    (fuel : ℕ) : Option K :=
  let N := g.getNumberOfPoints
  let relativePrecision : K := 1 / 10 ^ 8
  let tolerance := toleranceOverride.getD (relativePrecision * |E2 - E1|)
  refineLoop (fun E => getEndValue (integrateFromCenter mass E V g parity) N)
    tolerance fuel E1 E2

/-- WavefunctionNormalizer normalization methods. -/
inductive NormalizationMethod where
  | trapezoidal
  | simpson
  | max
deriving DecidableEq

/-- WavefunctionNormalizer.calculateTrapezoidalIntegral:
∫|ψ|² dx ≈ Σ_{i=0}^{len−2} (ψ_i² + ψ_{i+1}²)/2 · dx. -/
def calculateTrapezoidalIntegral (psi : List K) (dx : K) : K :=
  (((psi.zip psi.tail).map fun p => (p.1 * p.1 + p.2 * p.2) / 2).sum) * dx

/-- The loop of WavefunctionNormalizer.calculateSimpsonIntegral:
`for (i = 0; i < limit; i += 2) sum += ψ_i² + 4ψ_{i+1}² + ψ_{i+2}²`.
Array reads are JavaScript reads: an index past the end yields
`undefined`, squaring it yields NaN, modelled by `none`. -/
def simpsonLoop (psi : List K) (limit : ℕ) : ℕ → Option K
  | i =>
    if _h : i < limit then
      match psi.get? i, psi.get? (i + 1), psi.get? (i + 2) with
      | some a, some b, some c =>
        (simpsonLoop psi limit (i + 2)).map fun s => s + (a ^ 2 + 4 * b ^ 2 + c ^ 2)
      | _, _, _ => none
  else
    some 0
termination_by i => limit - i
decreasing_by omega

/-- WavefunctionNormalizer.calculateSimpsonIntegral: sums Simpson panels up
to `limit` (= N−2 for odd N, N−1 for even N), multiplies by dx/3, and for
odd N adds a trapezoidal term for the last interval.  `none` models a NaN
result caused by an out-of-bounds read. -/
def calculateSimpsonIntegral (psi : List K) (dx : K) : Option K :=
  let N := psi.length
  let limit := if N % 2 = 1 then N - 2 else N - 1
  (simpsonLoop psi limit 0).map fun s =>
    let integral := s * dx / 3
    if N % 2 = 1 then
      integral + (psi.getD (N - 2) 0 ^ 2 + psi.getD (N - 1) 0 ^ 2) / 2 * dx
    else integral

/-- WavefunctionNormalizer.findMaxAbsoluteValue. -/
def findMaxAbsoluteValue (psi : List K) : K :=
  psi.foldl (fun m v => max m |v|) 0

/-- WavefunctionNormalizer.scaleWavefunction: divide all samples by the
normalization factor; if the factor is zero (or NaN/∞ in the source,
covered by the `Option` in the callers) return the input unchanged. -/
def scaleWavefunction (psi : List K) (normalization : K) : List K :=
  if normalization = 0 then psi else psi.map fun v => v / normalization

/-- WavefunctionNormalizer.calculateNorm: the quadrature estimate of
∫|ψ|² dx by the configured method (`simpson` uses Simpson, every other
method the trapezoidal rule); `none` models a NaN result. -/
def calculateNorm (method : NormalizationMethod) (psi : List K) (dx : K) :
    Option K :=
  match method with
  | .simpson => calculateSimpsonIntegral psi dx
  | _ => some (calculateTrapezoidalIntegral psi dx)

/-- WavefunctionNormalizer.normalize: rescale by √(integral) for the
quadrature methods and by the maximum absolute sample for `max`.  A NaN
integral (`none`) gives a NaN factor, which `scaleWavefunction` treats as
non-finite and so returns the input unchanged. -/
def normalize (M : MathModel K) (method : NormalizationMethod)
    (psi : List K) (dx : K) : List K :=
  match method with
  | .trapezoidal => scaleWavefunction psi (M.sqrt (calculateTrapezoidalIntegral psi dx))
  | .simpson =>
    match calculateSimpsonIntegral psi dx with
    | none => psi
    | some integral => scaleWavefunction psi (M.sqrt integral)
  | .max => scaleWavefunction psi (findMaxAbsoluteValue psi)

/-- The mutable state of the energy-scan loops of NumerovSolverClass:
collected energies and wavefunctions, plus the running previous sign and
previous energy. -/
structure ScanState (K : Type) where
  energies : List K
  wavefunctions : List (List K)
  prevSign : K
  prevEnergy : K
deriving DecidableEq

/-- The energy-scan loop of NumerovSolverClass.findBoundStates, literally:
`for (E = energyMin + energyStep; E <= energyMax; E += energyStep)`
integrate, compare `Math.sign` of the end value with the previous nonzero
sign, refine a detected bracket [prevEnergy, E] and append the refined
energy and the normalized re-integrated wavefunction, and update the
previous sign/energy only when the current sign is nonzero.  Fuel-indexed;
`none` means either the scan or an inner refinement ran out of fuel. -/
def stdScanLoop (M : MathModel K) (mass tolerance : K) (isRel : Bool)
    (nm : NormalizationMethod) (V : List K) (g : XGrid K)
    (energyStep energyMax : K) (refineFuel : ℕ) :
    ℕ → K → ScanState K → Option (ScanState K)
  | fuel, E, st =>
    if E ≤ energyMax then
      match fuel with
      | 0 => none
      | fuel + 1 =>
        let psi := integrate M mass E V g
        let currentSign := msign (getEndValue psi psi.length)
        let afterDetect : Option (List K × List (List K)) :=
          if currentSign ≠ 0 ∧ st.prevSign ≠ 0 ∧ currentSign ≠ st.prevSign then
            match refine M mass tolerance isRel st.prevEnergy E V g refineFuel with
            | none => none
            | some refinedEnergy =>
              let refinedPsi := integrate M mass refinedEnergy V g
              some (st.energies ++ [refinedEnergy],
                st.wavefunctions ++ [normalize M nm refinedPsi g.getDx])
          else some (st.energies, st.wavefunctions)
        match afterDetect with
        | none => none
        | some (es, ws) =>
          let st' : ScanState K :=
            if currentSign ≠ 0 then ⟨es, ws, currentSign, E⟩
            else ⟨es, ws, st.prevSign, st.prevEnergy⟩
          stdScanLoop M mass tolerance isRel nm V g energyStep energyMax
            refineFuel fuel (E + energyStep) st'
    else some st

/-- NumerovSolverClass.ENERGY_SCAN_STEPS = 200 (standard scan). -/
def ENERGY_SCAN_STEPS : ℕ := 200

/-- NumerovSolverClass.findBoundStates: scan [energyMin, energyMax] in
steps of (energyMax − energyMin)/ENERGY_SCAN_STEPS, seeding the previous
sign from an integration at energyMin.  The refiner options come from the
solver's construction: an absolute energyTolerance override when provided,
else the default relative tolerance 1e-4. -/
def findBoundStates (M : MathModel K) (mass : K) (energyTolerance : Option K)
    (nm : NormalizationMethod) (V : List K) (g : XGrid K)
    (energyMin energyMax : K) (scanFuel refineFuel : ℕ) :
    Option (List K × List (List K)) :=
  let tolerance := energyTolerance.getD (1 / 10 ^ 4)
  let isRel := energyTolerance.isNone
  let energyStep := (energyMax - energyMin) / (ENERGY_SCAN_STEPS : K)
  let psi0 := integrate M mass energyMin V g
  let st0 : ScanState K := ⟨[], [], msign (getEndValue psi0 psi0.length), energyMin⟩
  (stdScanLoop M mass tolerance isRel nm V g energyStep energyMax refineFuel
      scanFuel (energyMin + energyStep) st0).map
    fun st => (st.energies, st.wavefunctions)

/-- The energy-scan loop of NumerovSolverClass.findBoundStatesSymmetric,
literally: the same loop shape as `stdScanLoop` but integrating from the
center with the requested parity and refining with
refineEnergySymmetric. -/
def symScanLoop [FloorRing K] (M : MathModel K) (mass : K)
    (toleranceOverride : Option K) (nm : NormalizationMethod) (V : List K)
    (g : XGrid K) (parity : Parity) (energyStep energyMax : K)
    (refineFuel : ℕ) : ℕ → K → ScanState K → Option (ScanState K)
  | fuel, E, st =>
    if E ≤ energyMax then
      match fuel with
      | 0 => none
      | fuel + 1 =>
        let psi := integrateFromCenter mass E V g parity
        let currentSign := msign (getEndValue psi psi.length)
        let afterDetect : Option (List K × List (List K)) :=
          if currentSign ≠ 0 ∧ st.prevSign ≠ 0 ∧ currentSign ≠ st.prevSign then
            match refineEnergySymmetric mass st.prevEnergy E V g parity
                toleranceOverride refineFuel with
            | none => none
            | some refinedEnergy =>
              let refinedPsi := integrateFromCenter mass refinedEnergy V g parity
              some (st.energies ++ [refinedEnergy],
                st.wavefunctions ++ [normalize M nm refinedPsi g.getDx])
          else some (st.energies, st.wavefunctions)
        match afterDetect with
        | none => none
        | some (es, ws) =>
          let st' : ScanState K :=
            if currentSign ≠ 0 then ⟨es, ws, currentSign, E⟩
            else ⟨es, ws, st.prevSign, st.prevEnergy⟩
          symScanLoop M mass toleranceOverride nm V g parity energyStep
            energyMax refineFuel fuel (E + energyStep) st'
    else some st

/-- NumerovSolverClass.findBoundStatesSymmetric: the symmetric-variant
scan; its energy step is (energyMax − energyMin)/1000. -/
def findBoundStatesSymmetric [FloorRing K] (M : MathModel K) (mass : K)
    (energyTolerance : Option K) (nm : NormalizationMethod) (V : List K)
    (g : XGrid K) (energyMin energyMax : K) (parity : Parity)
    (scanFuel refineFuel : ℕ) : Option (List K × List (List K)) :=
  let energyStep := (energyMax - energyMin) / 1000
  let psi0 := integrateFromCenter mass energyMin V g parity
  let st0 : ScanState K := ⟨[], [], msign (getEndValue psi0 psi0.length), energyMin⟩
  (symScanLoop M mass energyTolerance nm V g parity energyStep energyMax
      refineFuel scanFuel (energyMin + energyStep) st0).map
    fun st => (st.energies, st.wavefunctions)

/-- The solve result: energies, matching wavefunctions, the sampled grid
positions and a method tag. -/
structure BoundStateResult (K : Type) where
  energies : List K
  wavefunctions : List (List K)
  xGridArray : List K
  method : String
deriving DecidableEq

/-- Grid configuration passed to solve. -/
structure GridConfig (K : Type) where
  xMin : K
  xMax : K
  numPoints : ℕ
deriving DecidableEq

/-- NumerovSolverClass.solve: build the grid, sample the potential once,
find the bound states and package the result with the method tag
`"numerov"`. -/
def solve (M : MathModel K) (mass : K) (energyTolerance : Option K)
    (nm : NormalizationMethod) (potential : K → K) (cfg : GridConfig K)
    (energyMin energyMax : K) (scanFuel refineFuel : ℕ) :
    Option (BoundStateResult K) :=
  let g : XGrid K := ⟨cfg.xMin, cfg.xMax, cfg.numPoints⟩
  let xGridArray := g.getArray
  let V := xGridArray.map potential
  (findBoundStates M mass energyTolerance nm V g energyMin energyMax
      scanFuel refineFuel).map
    fun r => ⟨r.1, r.2, xGridArray, "numerov"⟩

/-- The spec's single scan schema (section 4.6): one energy-scan loop
parameterized by the integrator, the bracket refiner and the normalizer.
`stdScanLoop` and `symScanLoop` are both instances of it; which step count
each uses is then visible in `findBoundStates` / `findBoundStatesSymmetric`. -/
def scanWith (intg : K → List K) (refn : K → K → Option K)
    (nrm : List K → List K) (energyStep energyMax : K) :
    ℕ → K → ScanState K → Option (ScanState K)
  | fuel, E, st =>
    if E ≤ energyMax then
      match fuel with
      | 0 => none
      | fuel + 1 =>
        let psi := intg E
        let currentSign := msign (getEndValue psi psi.length)
        let afterDetect : Option (List K × List (List K)) :=
          if currentSign ≠ 0 ∧ st.prevSign ≠ 0 ∧ currentSign ≠ st.prevSign then
            match refn st.prevEnergy E with
            | none => none
            | some refinedEnergy =>
              some (st.energies ++ [refinedEnergy],
                st.wavefunctions ++ [nrm (intg refinedEnergy)])
          else some (st.energies, st.wavefunctions)
        match afterDetect with
        | none => none
        | some (es, ws) =>
          let st' : ScanState K :=
            if currentSign ≠ 0 then ⟨es, ws, currentSign, E⟩
            else ⟨es, ws, st.prevSign, st.prevEnergy⟩
          scanWith intg refn nrm energyStep energyMax fuel (E + energyStep) st'
    else some st

/-!  Reference definitions taken from the specification text (section 4.2),
used to state the functional-correctness claims about the integrator. -/

/-- Spec: k²_i = 2m(E − V_i)/ħ². -/
def specK2 (mass E : K) (V : List K) (i : ℕ) : K :=
  2 * mass * (E - V.getD i 0) / (HBAR * HBAR)

/-- Spec: Numerov coefficient f_i = (dx²/12)·k²_i. -/
def specF (mass E : K) (V : List K) (dx : K) (i : ℕ) : K :=
  dx ^ 2 / 12 * specK2 mass E V i

/-- Spec: boundary seed ψ₁ with scale s = 1/(N·√L), L = N·dx:
s·sin(√k²₁·dx) when k²₁ ≥ 0, s·exp(−√|k²₁|·L/2) when k²₁ < 0. -/
def specSeed (M : MathModel K) (mass E : K) (V : List K) (g : XGrid K) : K :=
  let N := g.numPoints
  let dx := g.getDx
  let L := (N : K) * dx
  let s := 1 / ((N : K) * M.sqrt L)
  if 0 ≤ specK2 mass E V 1 then s * M.sin (M.sqrt (specK2 mass E V 1) * dx)
  else s * M.exp (-(M.sqrt |specK2 mass E V 1|) * (L / 2))

/-- The reference recursion of the spec: ψ₀ = 0, ψ₁ the boundary seed, and
ψ_{j+1} = [(2 − 10 f_j)ψ_j − (1 + f_{j−1})ψ_{j−1}] / (1 + f_{j+1}) for
j = 1 .. N−2 (stated here for every index). -/
def refPsi (M : MathModel K) (mass E : K) (V : List K) (g : XGrid K) : ℕ → K
  | 0 => 0
  | 1 => specSeed M mass E V g
  | n + 2 =>
    ((2 - 10 * specF mass E V g.getDx (n + 1)) * refPsi M mass E V g (n + 1)
        - (1 + specF mass E V g.getDx n) * refPsi M mass E V g n)
      / (1 + specF mass E V g.getDx (n + 2))

/-- `getD` commutes with `map` at an in-bounds index. -/
lemma getD_map {α β : Type} (fn : α → β) (l : List α) (i : ℕ) (d : β) (d' : α)
    (h : i < l.length) : (l.map fn).getD i d = fn (l.getD i d') := by
  induction l generalizing i with
  | nil => simp at h
  | cons x xs ih =>
    cases i with
    | zero => simp
    | succ i => simpa using ih i (by simpa using h)

/-- The f-array computed by the integrator agrees with the Numerov
coefficient formula of the spec at every in-bounds index. -/
lemma numerovFactors_getD (mass E dx : K) (V : List K) (i : ℕ)
    (h : i < V.length) :
    (calculateNumerovFactors (calculateK2 mass E V) dx).getD i 0
      = specF mass E V dx i := by
  unfold calculateNumerovFactors calculateK2 specF specK2
  rw [getD_map _ _ _ _ (0 : K) (by simpa using h), getD_map _ _ _ _ (0 : K) h]
  ring

/-- The integrator's seed value agrees with the spec's seed formula. -/
lemma initialSeed_eq_specSeed (M : MathModel K) (mass E : K) (V : List K)
    (g : XGrid K) (h : 1 < V.length) :
    initialSeed M (calculateK2 mass E V) g.getDx g.numPoints
      = specSeed M mass E V g := by
  unfold initialSeed specSeed calculateK2 specK2
  rw [getD_map _ _ _ _ (0 : K) h]

/-- While the divergence guard never fires, the forward loop reproduces any
function `r` satisfying the Numerov step relation from its two seeds. -/
lemma integrateForwardFrom_no_trigger (f : List K) (r : ℕ → K) :
    ∀ fuel j, 1 ≤ j →
      (∀ m, j ≤ m → m < j + fuel →
        r (m + 1) = numerovStep (r m) (r (m - 1)) (f.getD m 0) (f.getD (m - 1) 0)
          (f.getD (m + 1) 0)) →
      (∀ m, j ≤ m → m < j + fuel → |r (m + 1)| ≤ VERY_LARGE_VALUE) →
      integrateForwardFrom f fuel j (r (j - 1)) (r j)
        = (List.range' (j + 1) fuel).map r := by
  intro fuel
  induction fuel with
  | zero => intro j hj hstep hle; simp [integrateForwardFrom]
  | succ fuel ih =>
    intro j hj hstep hle
    rw [integrateForwardFrom]
    have hv : numerovStep (r j) (r (j - 1)) (f.getD j 0) (f.getD (j - 1) 0)
        (f.getD (j + 1) 0) = r (j + 1) := (hstep j le_rfl (by omega)).symm
    simp only [hv]
    rw [if_neg (not_lt.mpr (hle j le_rfl (by omega)))]
    have htail := ih (j + 1) (by omega)
      (fun m hm1 hm2 => hstep m (by omega) (by omega))
      (fun m hm1 hm2 => hle m (by omega) (by omega))
    rw [Nat.add_sub_cancel] at htail
    rw [htail, List.range'_succ]
    simp

/-- C1.  For every energy, every potential array of the grid's length
(N ≥ 2), if the divergence guard never triggers (the reference values stay
within 1e300 in absolute value at every recurrence step j = 1 .. N−2),
then `NumerovIntegrator.integrate` returns exactly the array defined by the
spec's reference recursion `refPsi`: ψ₀ = 0, the physically scaled seed ψ₁,
and the Numerov recurrence for j = 1 .. N−2. -/
theorem integrate_matches_reference_recursion {K : Type} [LinearOrderedField K]
    (M : MathModel K) (mass E : K) (V : List K) (g : XGrid K)
    (hN : 2 ≤ g.numPoints) (hV : V.length = g.numPoints)
    (hguard : ∀ j, j ≤ g.numPoints - 2 → 1 ≤ j →
      |refPsi M mass E V g (j + 1)| ≤ VERY_LARGE_VALUE) :
    integrate M mass E V g = (List.range g.numPoints).map (refPsi M mass E V g) := by
  have hstep : ∀ m, 1 ≤ m → m + 1 < g.numPoints →
      refPsi M mass E V g (m + 1)
        = numerovStep (refPsi M mass E V g m) (refPsi M mass E V g (m - 1))
            ((calculateNumerovFactors (calculateK2 mass E V) g.getDx).getD m 0)
            ((calculateNumerovFactors (calculateK2 mass E V) g.getDx).getD (m - 1) 0)
            ((calculateNumerovFactors (calculateK2 mass E V) g.getDx).getD (m + 1) 0) := by
    intro m h1 h2
    obtain ⟨n, rfl⟩ : ∃ n, m = n + 1 := ⟨m - 1, by omega⟩
    rw [numerovFactors_getD _ _ _ _ _ (by omega),
      numerovFactors_getD _ _ _ _ _ (by omega),
      numerovFactors_getD _ _ _ _ _ (by omega)]
    simp only [Nat.add_sub_cancel]
    unfold numerovStep
    rw [show n + 1 + 1 = n + 2 by ring]
    rw [refPsi]
  have hle : ∀ m, 1 ≤ m → m < 1 + (g.numPoints - 2) →
      |refPsi M mass E V g (m + 1)| ≤ VERY_LARGE_VALUE := by
    intro m h1 h2
    exact hguard m (by omega) h1
  have hloop := integrateForwardFrom_no_trigger
    (calculateNumerovFactors (calculateK2 mass E V) g.getDx)
    (refPsi M mass E V g) (g.numPoints - 2) 1 le_rfl
    (fun m hm1 hm2 => hstep m hm1 (by omega))
    (fun m hm1 hm2 => hle m hm1 hm2)
  obtain ⟨N0, hN0⟩ : ∃ n, g.numPoints = n + 2 := ⟨g.numPoints - 2, by omega⟩
  simp only [integrate, XGrid.getLength]
  rw [initialSeed_eq_specSeed M mass E V g (by omega)]
  have h0 : (0 : K) = refPsi M mass E V g 0 := rfl
  have h1 : specSeed M mass E V g = refPsi M mass E V g 1 := rfl
  rw [h0, h1]
  have hseed0 : refPsi M mass E V g 0 = refPsi M mass E V g (1 - 1) := rfl
  rw [hseed0, hloop]
  rw [hN0, List.range_eq_range', List.range'_succ, List.range'_succ]
  simp

/-- Witness for C1: a concrete instance (ℚ, zero mass, three grid points)
at which all the hypotheses hold and the theorem applies. -/
theorem integrate_matches_reference_recursion_witness :
    (2 ≤ (3 : ℕ) ∧ [(0 : ℚ), 0, 0].length = 3 ∧
      (∀ j, j ≤ (3 : ℕ) - 2 → 1 ≤ j →
        |refPsi ratMathModel 0 0 [(0 : ℚ), 0, 0] ⟨0, 2, 3⟩ (j + 1)| ≤ VERY_LARGE_VALUE)) ∧
    integrate ratMathModel 0 0 [(0 : ℚ), 0, 0] ⟨0, 2, 3⟩
      = (List.range 3).map (refPsi ratMathModel 0 0 [(0 : ℚ), 0, 0] ⟨0, 2, 3⟩) := by
  have hguard : ∀ j, j ≤ (3 : ℕ) - 2 → 1 ≤ j →
      |refPsi ratMathModel 0 0 [(0 : ℚ), 0, 0] ⟨0, 2, 3⟩ (j + 1)| ≤ VERY_LARGE_VALUE := by
    intro j h1 h2
    have hj : j = 1 := by omega
    subst hj
    norm_num [refPsi, specSeed, specF, specK2, ratMathModel, XGrid.getDx, HBAR,
      VERY_LARGE_VALUE]
  exact ⟨⟨by norm_num, by norm_num, hguard⟩,
    integrate_matches_reference_recursion ratMathModel 0 0 [(0 : ℚ), 0, 0] ⟨0, 2, 3⟩
      (by norm_num) (by norm_num) hguard⟩

/-- When the guard first fires at step j₀, the forward loop computes the
reference values up to index j₀ + 1 and fills the rest with that value. -/
lemma integrateForwardFrom_trigger (f : List K) (r : ℕ → K) :
    ∀ fuel j j₀, 1 ≤ j → j ≤ j₀ → j₀ < j + fuel →
      (∀ m, j ≤ m → m ≤ j₀ →
        r (m + 1) = numerovStep (r m) (r (m - 1)) (f.getD m 0) (f.getD (m - 1) 0)
          (f.getD (m + 1) 0)) →
      (∀ m, j ≤ m → m < j₀ → |r (m + 1)| ≤ VERY_LARGE_VALUE) →
      VERY_LARGE_VALUE < |r (j₀ + 1)| →
      integrateForwardFrom f fuel j (r (j - 1)) (r j)
        = (List.range' (j + 1) (j₀ - j)).map r
          ++ List.replicate (fuel - (j₀ - j)) (r (j₀ + 1)) := by
  intro fuel
  induction fuel with
  | zero => intro j j₀ hj hjj hlt hstep hle htrig; omega
  | succ fuel ih =>
    intro j j₀ hj hjj hlt hstep hle htrig
    rw [integrateForwardFrom]
    have hv : numerovStep (r j) (r (j - 1)) (f.getD j 0) (f.getD (j - 1) 0)
        (f.getD (j + 1) 0) = r (j + 1) := (hstep j le_rfl hjj).symm
    simp only [hv]
    rcases eq_or_lt_of_le hjj with heq | hlt2
    · subst heq
      rw [if_pos htrig]
      simp
    · rw [if_neg (not_lt.mpr (hle j le_rfl hlt2))]
      have htail := ih (j + 1) j₀ (by omega) (by omega) (by omega)
        (fun m hm1 hm2 => hstep m (by omega) hm2)
        (fun m hm1 hm2 => hle m (by omega) hm2)
        htrig
      rw [Nat.add_sub_cancel] at htail
      rw [htail]
      have h1 : j₀ - j = (j₀ - (j + 1)) + 1 := by omega
      have h2 : fuel - (j₀ - (j + 1)) = (fuel + 1) - (j₀ - j) := by omega
      rw [h1, List.range'_succ, h2]
      simp
      omega

/-- C5.  If during forward integration the first value exceeding 1e300 in
absolute value appears at recurrence step j₀ (so ψ_{j₀+1} overflows the
guard while all earlier recurrence values stayed within it), then
`NumerovIntegrator.integrate` returns the reference values up to index j₀
followed by the signed overflowing value ψ_{j₀+1} repeated in every
remaining entry (indices j₀ + 1 .. N−1), performing no further recurrence
steps; the result still has the grid's length.  In this exact-arithmetic
model every entry is a field element, so no NaN or Infinity can occur. -/
theorem integrate_divergence_guard {K : Type} [LinearOrderedField K]
    (M : MathModel K) (mass E : K) (V : List K) (g : XGrid K) (j₀ : ℕ)
    (hN : 2 ≤ g.numPoints) (hV : V.length = g.numPoints)
    (hj1 : 1 ≤ j₀) (hj2 : j₀ ≤ g.numPoints - 2)
    (hbefore : ∀ m, 1 ≤ m → m < j₀ → |refPsi M mass E V g (m + 1)| ≤ VERY_LARGE_VALUE)
    (htrig : VERY_LARGE_VALUE < |refPsi M mass E V g (j₀ + 1)|) :
    integrate M mass E V g
      = (List.range (j₀ + 1)).map (refPsi M mass E V g)
        ++ List.replicate (g.numPoints - 1 - j₀) (refPsi M mass E V g (j₀ + 1))
    ∧ (integrate M mass E V g).length = g.numPoints := by
  have hstep : ∀ m, 1 ≤ m → m + 1 < g.numPoints →
      refPsi M mass E V g (m + 1)
        = numerovStep (refPsi M mass E V g m) (refPsi M mass E V g (m - 1))
            ((calculateNumerovFactors (calculateK2 mass E V) g.getDx).getD m 0)
            ((calculateNumerovFactors (calculateK2 mass E V) g.getDx).getD (m - 1) 0)
            ((calculateNumerovFactors (calculateK2 mass E V) g.getDx).getD (m + 1) 0) := by
    intro m h1 h2
    obtain ⟨n, rfl⟩ : ∃ n, m = n + 1 := ⟨m - 1, by omega⟩
    rw [numerovFactors_getD _ _ _ _ _ (by omega),
      numerovFactors_getD _ _ _ _ _ (by omega),
      numerovFactors_getD _ _ _ _ _ (by omega)]
    simp only [Nat.add_sub_cancel]
    unfold numerovStep
    rw [show n + 1 + 1 = n + 2 by ring]
    rw [refPsi]
  have hmain : integrate M mass E V g
      = (List.range (j₀ + 1)).map (refPsi M mass E V g)
        ++ List.replicate (g.numPoints - 1 - j₀) (refPsi M mass E V g (j₀ + 1)) := by
    have hloop := integrateForwardFrom_trigger
      (calculateNumerovFactors (calculateK2 mass E V) g.getDx)
      (refPsi M mass E V g) (g.numPoints - 2) 1 j₀ le_rfl hj1 (by omega)
      (fun m hm1 hm2 => hstep m hm1 (by omega))
      (fun m hm1 hm2 => hbefore m hm1 hm2)
      htrig
    simp only [integrate, XGrid.getLength]
    rw [initialSeed_eq_specSeed M mass E V g (by omega)]
    have h0 : (0 : K) = refPsi M mass E V g 0 := rfl
    have h1 : specSeed M mass E V g = refPsi M mass E V g 1 := rfl
    rw [h0, h1]
    have hseed0 : refPsi M mass E V g 0 = refPsi M mass E V g (1 - 1) := rfl
    rw [hseed0, hloop]
    obtain ⟨n0, hn0⟩ : ∃ n, j₀ = n + 1 := ⟨j₀ - 1, by omega⟩
    rw [hn0, List.range_eq_range']
    rw [show n0 + 1 + 1 = n0 + 2 by ring, List.range'_succ, List.range'_succ]
    have harith : g.numPoints - 2 - (n0 + 1 - 1) = g.numPoints - 1 - (n0 + 1) := by omega
    simp [harith]
    omega
  refine ⟨hmain, ?_⟩
  rw [hmain]
  simp
  omega

set_option exponentiation.threshold 400 in
/-- Witness for C5: a concrete ℚ instance where the guard fires at the
first recurrence step (the computed ψ₂ is −17/36·10³⁰²) and the theorem
applies. -/
theorem integrate_divergence_guard_witness :
    (2 ≤ (3 : ℕ) ∧ [(0 : ℚ), 1, 12 * (1 - 1 / 10 ^ 302)].length = 3 ∧
      (1 : ℕ) ≤ 1 ∧ (1 : ℕ) ≤ 3 - 2 ∧
      (∀ m, 1 ≤ m → m < 1 →
        |refPsi ratMathModel (HBAR * HBAR / 2) 0 [(0 : ℚ), 1, 12 * (1 - 1 / 10 ^ 302)]
          ⟨0, 2, 3⟩ (m + 1)| ≤ VERY_LARGE_VALUE) ∧
      VERY_LARGE_VALUE <
        |refPsi ratMathModel (HBAR * HBAR / 2) 0 [(0 : ℚ), 1, 12 * (1 - 1 / 10 ^ 302)]
          ⟨0, 2, 3⟩ (1 + 1)|) ∧
    (integrate ratMathModel (HBAR * HBAR / 2) 0 [(0 : ℚ), 1, 12 * (1 - 1 / 10 ^ 302)]
        ⟨0, 2, 3⟩
      = (List.range (1 + 1)).map
          (refPsi ratMathModel (HBAR * HBAR / 2) 0 [(0 : ℚ), 1, 12 * (1 - 1 / 10 ^ 302)]
            ⟨0, 2, 3⟩)
        ++ List.replicate (3 - 1 - 1)
          (refPsi ratMathModel (HBAR * HBAR / 2) 0 [(0 : ℚ), 1, 12 * (1 - 1 / 10 ^ 302)]
            ⟨0, 2, 3⟩ (1 + 1))
      ∧ (integrate ratMathModel (HBAR * HBAR / 2) 0 [(0 : ℚ), 1, 12 * (1 - 1 / 10 ^ 302)]
          ⟨0, 2, 3⟩).length = 3) := by
  have htrig : VERY_LARGE_VALUE <
      |refPsi ratMathModel (HBAR * HBAR / 2) 0 [(0 : ℚ), 1, 12 * (1 - 1 / 10 ^ 302)]
        ⟨0, 2, 3⟩ (1 + 1)| := by
    have h : refPsi ratMathModel (HBAR * HBAR / 2) 0 [(0 : ℚ), 1, 12 * (1 - 1 / 10 ^ 302)]
        ⟨0, 2, 3⟩ 2 = -(17 / 36) * 10 ^ 302 := by
      norm_num [refPsi, specSeed, specF, specK2, ratMathModel, XGrid.getDx, HBAR]
    rw [show (1 + 1 : ℕ) = 2 from rfl, h, abs_mul, abs_neg,
      abs_of_nonneg (by norm_num : (0 : ℚ) ≤ 17 / 36),
      abs_of_nonneg (by positivity : (0 : ℚ) ≤ 10 ^ 302)]
    norm_num [VERY_LARGE_VALUE]
  have hbefore : ∀ m, 1 ≤ m → m < 1 →
      |refPsi ratMathModel (HBAR * HBAR / 2) 0 [(0 : ℚ), 1, 12 * (1 - 1 / 10 ^ 302)]
        ⟨0, 2, 3⟩ (m + 1)| ≤ VERY_LARGE_VALUE := by
    intro m h1 h2; omega
  exact ⟨⟨by norm_num, by norm_num, le_rfl, by norm_num, hbefore, htrig⟩,
    integrate_divergence_guard ratMathModel (HBAR * HBAR / 2) 0
      [(0 : ℚ), 1, 12 * (1 - 1 / 10 ^ 302)] ⟨0, 2, 3⟩ 1
      (by norm_num) (by norm_num) le_rfl (by norm_num) hbefore htrig⟩

/-!  Helper lemmas about `Math.sign` and the bisection loop. -/

lemma msign_eq_zero_iff (x : K) : msign x = 0 ↔ x = 0 := by
  unfold msign
  split_ifs with h1 h2
  · constructor
    · intro h; exact absurd h (by norm_num)
    · intro h; exact absurd (h ▸ h1) (lt_irrefl 0)
  · constructor
    · intro h; exact absurd h (by norm_num)
    · intro h; exact absurd (h ▸ h2) (lt_irrefl 0)
  · simp; linarith

/-- The end value driving the standard refiner's sign comparisons. -/
def refineEndValue (M : MathModel K) (mass : K) (V : List K) (g : XGrid K)
    (E : K) : K :=
  getEndValue (integrate M mass E V g) g.getNumberOfPoints

/-- The absolute tolerance EnergyRefiner.refine derives from its options:
tolerance · |E2 − E1| in relative mode, tolerance itself otherwise. -/
def refineAbsTolerance (tolerance : K) (isRel : Bool) (E1 E2 : K) : K :=
  if isRel then tolerance * |E2 - E1| else tolerance

/-- The bracket after n bisection iterations. -/
def refineIterates (endOf : K → K) (p : K × K) (n : ℕ) : K × K :=
  (fun q => refineStep endOf q.1 q.2)^[n] p

lemma refine_eq_refineLoop (M : MathModel K) (mass tolerance : K) (isRel : Bool)
    (E1 E2 : K) (V : List K) (g : XGrid K) (fuel : ℕ) :
    refine M mass tolerance isRel E1 E2 V g fuel
      = refineLoop (refineEndValue M mass V g)
          (refineAbsTolerance tolerance isRel E1 E2) fuel E1 E2 := rfl

/-- Each bisection step keeps the bracket nested. -/
lemma refineStep_nested (endOf : K → K) (lo hi : K) (h : lo ≤ hi) :
    lo ≤ (refineStep endOf lo hi).1 ∧
    (refineStep endOf lo hi).1 ≤ (refineStep endOf lo hi).2 ∧
    (refineStep endOf lo hi).2 ≤ hi := by
  simp only [refineStep]
  split_ifs <;> refine ⟨by linarith, by linarith, by linarith⟩

/-- Each bisection step halves the bracket width. -/
lemma refineStep_halves (endOf : K → K) (lo hi : K) :
    (refineStep endOf lo hi).2 - (refineStep endOf lo hi).1 = (hi - lo) / 2 := by
  simp only [refineStep]
  split_ifs <;> simp <;> ring

lemma refineIterates_nested (endOf : K → K) (lo hi : K) (h : lo ≤ hi) :
    ∀ n, lo ≤ (refineIterates endOf (lo, hi) n).1 ∧
      (refineIterates endOf (lo, hi) n).1 ≤ (refineIterates endOf (lo, hi) n).2 ∧
      (refineIterates endOf (lo, hi) n).2 ≤ hi := by
  intro n
  induction n with
  | zero => exact ⟨le_rfl, h, le_rfl⟩
  | succ n ih =>
    have hs := refineStep_nested endOf (refineIterates endOf (lo, hi) n).1
      (refineIterates endOf (lo, hi) n).2 ih.2.1
    unfold refineIterates at *
    rw [Function.iterate_succ_apply']
    exact ⟨le_trans ih.1 hs.1, hs.2.1, le_trans hs.2.2 ih.2.2⟩

/-- A successful `refineLoop` run stops at the first iteration whose
bracket width is within tolerance and returns the midpoint of that
bracket. -/
lemma refineLoop_some_spec (endOf : K → K) (tol : K) :
    ∀ fuel lo hi E, refineLoop endOf tol fuel lo hi = some E →
      ∃ n, n ≤ fuel ∧
        (∀ m, m < n → tol < (refineIterates endOf (lo, hi) m).2
          - (refineIterates endOf (lo, hi) m).1) ∧
        (refineIterates endOf (lo, hi) n).2 - (refineIterates endOf (lo, hi) n).1 ≤ tol ∧
        E = ((refineIterates endOf (lo, hi) n).1 + (refineIterates endOf (lo, hi) n).2) / 2 := by
  intro fuel
  induction fuel with
  | zero =>
    intro lo hi E hret
    rw [refineLoop] at hret
    by_cases h : tol < hi - lo
    · rw [if_pos h] at hret; exact absurd hret (by simp)
    · rw [if_neg h] at hret
      refine ⟨0, le_rfl, by omega, not_lt.mp h, ?_⟩
      simpa [refineIterates] using (Option.some_injective K hret).symm
  | succ fuel ih =>
    intro lo hi E hret
    rw [refineLoop] at hret
    by_cases h : tol < hi - lo
    · rw [if_pos h] at hret
      obtain ⟨n, hn, hgt, hle, hE⟩ := ih _ _ _ hret
      refine ⟨n + 1, by omega, ?_, ?_, ?_⟩
      · intro m hm
        cases m with
        | zero => simpa [refineIterates] using h
        | succ m =>
          have := hgt m (by omega)
          unfold refineIterates at *
          rwa [Function.iterate_succ_apply]
      · unfold refineIterates at *
        rwa [Function.iterate_succ_apply]
      · unfold refineIterates at *
        rwa [Function.iterate_succ_apply]
    · rw [if_neg h] at hret
      refine ⟨0, by omega, by omega, not_lt.mp h, ?_⟩
      simpa [refineIterates] using (Option.some_injective K hret).symm

/-- C2.  EnergyRefiner.refine with E1 < E2: whenever a call returns (the
model's fuel bound is immaterial to the returned value), the returned
energy is the midpoint of the final bracket, the loop stopped at the first
iteration whose bracket width was at most the absolute tolerance derived
from the options (tolerance·|E2 − E1| in the default relative mode, the
given absolute tolerance in Joules otherwise), and the result lies within
[E1, E2]; moreover at each bisection step, whenever a bracket has opposite
nonzero end-value signs and the midpoint's end value has nonzero sign, the
bound whose sign equals the midpoint's sign — and only that bound — is
replaced by the midpoint. -/
theorem refine_bisection_spec {K : Type} [LinearOrderedField K]
    (M : MathModel K) (mass tolerance : K) (isRel : Bool) (E1 E2 : K)
    (V : List K) (g : XGrid K) (fuel : ℕ) (E : K)
    (hlt : E1 < E2)
    (hret : refine M mass tolerance isRel E1 E2 V g fuel = some E) :
    (E1 ≤ E ∧ E ≤ E2) ∧
    (∃ n, n ≤ fuel ∧
      (∀ m, m < n →
        refineAbsTolerance tolerance isRel E1 E2 <
          (refineIterates (refineEndValue M mass V g) (E1, E2) m).2
            - (refineIterates (refineEndValue M mass V g) (E1, E2) m).1) ∧
      (refineIterates (refineEndValue M mass V g) (E1, E2) n).2
          - (refineIterates (refineEndValue M mass V g) (E1, E2) n).1
        ≤ refineAbsTolerance tolerance isRel E1 E2 ∧
      E = ((refineIterates (refineEndValue M mass V g) (E1, E2) n).1
          + (refineIterates (refineEndValue M mass V g) (E1, E2) n).2) / 2) ∧
    (∀ lo hi : K,
      msign (refineEndValue M mass V g lo) ≠ 0 →
      msign (refineEndValue M mass V g hi) ≠ 0 →
      msign (refineEndValue M mass V g lo) ≠ msign (refineEndValue M mass V g hi) →
      msign (refineEndValue M mass V g ((lo + hi) / 2)) ≠ 0 →
      (msign (refineEndValue M mass V g ((lo + hi) / 2))
          = msign (refineEndValue M mass V g lo) →
        refineStep (refineEndValue M mass V g) lo hi = ((lo + hi) / 2, hi)) ∧
      (msign (refineEndValue M mass V g ((lo + hi) / 2))
          = msign (refineEndValue M mass V g hi) →
        refineStep (refineEndValue M mass V g) lo hi = (lo, (lo + hi) / 2))) := by
  rw [refine_eq_refineLoop] at hret
  obtain ⟨n, hn, hgt, hle, hE⟩ := refineLoop_some_spec _ _ _ _ _ _ hret
  have hnest := refineIterates_nested (refineEndValue M mass V g) E1 E2 hlt.le n
  refine ⟨⟨?_, ?_⟩, ⟨n, hn, hgt, hle, hE⟩, ?_⟩
  · rw [hE]; linarith [hnest.1, hnest.2.1, hnest.2.2]
  · rw [hE]; linarith [hnest.1, hnest.2.1, hnest.2.2]
  · intro lo hi hlo hhi hopp hmid
    constructor
    · intro hsame
      simp only [refineStep, haveSameSign]
      rw [if_pos hsame]
    · intro hsame
      simp only [refineStep, haveSameSign]
      rw [if_neg]
      intro hcontra
      exact hopp (hcontra.symm.trans hsame)

/-- Witness for C2: with zero particle mass over ℚ every end value is 0, so
each step keeps the low bound moving; with absolute tolerance 1/4 and
bracket [0, 1] the refinement returns 7/8 after two iterations. -/
theorem refine_bisection_spec_witness :
    ((0 : ℚ) < 1 ∧
      refine ratMathModel 0 (1 / 4) false 0 1 [(0 : ℚ), 0] ⟨0, 1, 2⟩ 2 = some (7 / 8)) ∧
    ((0 : ℚ) ≤ 7 / 8 ∧ (7 : ℚ) / 8 ≤ 1) ∧
    (∃ n, n ≤ 2 ∧
      (∀ m, m < n →
        refineAbsTolerance (1 / 4 : ℚ) false 0 1 <
          (refineIterates (refineEndValue ratMathModel 0 [(0 : ℚ), 0] ⟨0, 1, 2⟩) (0, 1) m).2
            - (refineIterates (refineEndValue ratMathModel 0 [(0 : ℚ), 0] ⟨0, 1, 2⟩) (0, 1) m).1) ∧
      (refineIterates (refineEndValue ratMathModel 0 [(0 : ℚ), 0] ⟨0, 1, 2⟩) (0, 1) n).2
          - (refineIterates (refineEndValue ratMathModel 0 [(0 : ℚ), 0] ⟨0, 1, 2⟩) (0, 1) n).1
        ≤ refineAbsTolerance (1 / 4 : ℚ) false 0 1 ∧
      (7 : ℚ) / 8 = ((refineIterates (refineEndValue ratMathModel 0 [(0 : ℚ), 0] ⟨0, 1, 2⟩) (0, 1) n).1
          + (refineIterates (refineEndValue ratMathModel 0 [(0 : ℚ), 0] ⟨0, 1, 2⟩) (0, 1) n).2) / 2) := by
  have hret : refine ratMathModel 0 (1 / 4) false 0 1 [(0 : ℚ), 0] ⟨0, 1, 2⟩ 2
      = some (7 / 8) := by
    norm_num [refine, refineLoop, refineStep, haveSameSign, msign, getEndValue,
      integrate, initialSeed, calculateK2, calculateNumerovFactors, integrateForwardFrom,
      ratMathModel, XGrid.getDx, XGrid.getNumberOfPoints, XGrid.getLength, HBAR]
  have h := refine_bisection_spec ratMathModel 0 (1 / 4) false 0 1 [(0 : ℚ), 0]
    ⟨0, 1, 2⟩ 2 (7 / 8) (by norm_num) hret
  exact ⟨⟨by norm_num, hret⟩, h.1, h.2.1⟩

/-- If the initial bracket width is at most 2^fuel times the tolerance,
the bisection loop finishes within that fuel. -/
lemma refineLoop_some_of_fuel (endOf : K → K) (tol : K) :
    ∀ fuel lo hi, hi - lo ≤ 2 ^ fuel * tol →
      ∃ E, refineLoop endOf tol fuel lo hi = some E := by
  intro fuel
  induction fuel with
  | zero =>
    intro lo hi hw
    rw [refineLoop]
    rw [if_neg (by rw [pow_zero, one_mul] at hw; exact not_lt.mpr hw)]
    exact ⟨_, rfl⟩
  | succ fuel ih =>
    intro lo hi hw
    rw [refineLoop]
    by_cases h : tol < hi - lo
    · rw [if_pos h]
      apply ih
      rw [refineStep_halves]
      rw [pow_succ] at hw
      linarith
    · rw [if_neg h]
      exact ⟨_, rfl⟩

/-- C8.  For every call with E1 < E2 in the default relative mode
(tolerance 1e-4·(E2 − E1) > 0), the bisection loop terminates: every step
halves the bracket width, so the width is below tolerance after at most 14
iterations (2^14 > 10^4) and refine returns. -/
theorem refine_terminates {K : Type} [LinearOrderedField K] (M : MathModel K)
    (mass E1 E2 : K) (V : List K) (g : XGrid K)
    (hlt : E1 < E2) :
    (∀ endOf : K → K, ∀ lo hi : K,
      (refineStep endOf lo hi).2 - (refineStep endOf lo hi).1 = (hi - lo) / 2) ∧
    ∃ E, refine M mass (1 / 10 ^ 4) true E1 E2 V g 14 = some E := by
  refine ⟨fun endOf lo hi => refineStep_halves endOf lo hi, ?_⟩
  rw [refine_eq_refineLoop]
  apply refineLoop_some_of_fuel
  unfold refineAbsTolerance
  rw [if_pos rfl, abs_of_pos (by linarith : (0 : K) < E2 - E1)]
  nlinarith [sub_pos.mpr hlt]

/-- Witness for C8: refine terminates on the concrete bracket [0, 1]. -/
theorem refine_terminates_witness :
    (0 : ℚ) < 1 ∧
    ((∀ endOf : ℚ → ℚ, ∀ lo hi : ℚ,
      (refineStep endOf lo hi).2 - (refineStep endOf lo hi).1 = (hi - lo) / 2) ∧
    ∃ E, refine ratMathModel 0 (1 / 10 ^ 4) true 0 1 [(0 : ℚ), 0] ⟨0, 1, 2⟩ 14 = some E) :=
  ⟨by norm_num,
    refine_terminates ratMathModel 0 0 1 [(0 : ℚ), 0] ⟨0, 1, 2⟩ (by norm_num)⟩

/-- A bisection step whose midpoint end value is exactly zero while the
low end value is nonzero replaces the high bound. -/
lemma refineStep_replaces_high_of_mid_zero (endOf : K → K) (lo hi : K)
    (h0 : endOf ((lo + hi) / 2) = 0) (hl : endOf lo ≠ 0) :
    refineStep endOf lo hi = (lo, (lo + hi) / 2) := by
  have hm0 : msign (endOf ((lo + hi) / 2)) = 0 := by rw [h0]; simp [msign]
  have hml : msign (endOf lo) ≠ 0 := fun hc => hl ((msign_eq_zero_iff _).mp hc)
  simp only [refineStep, haveSameSign]
  rw [if_neg (fun heq => hml (heq.symm.trans hm0))]

/-- C10.  Tie-break at an exactly-zero midpoint end value: in both the
standard refiner's bisection step and the symmetric refiner's bisection
step, if the midpoint's end value is exactly zero while the low bound's
end value is nonzero, `Math.sign` equality fails (sign 0 equals only
sign 0), so the high bound — not the low bound — is replaced by the
midpoint. -/
theorem refineStep_zero_tiebreak {K : Type} [LinearOrderedField K] [FloorRing K]
    (M : MathModel K) (mass : K) (V : List K) (g : XGrid K) (parity : Parity)
    (lo hi lo' hi' : K) :
    (getEndValue (integrate M mass ((lo + hi) / 2) V g) g.getNumberOfPoints = 0 →
      getEndValue (integrate M mass lo V g) g.getNumberOfPoints ≠ 0 →
      refineStep (fun E => getEndValue (integrate M mass E V g) g.getNumberOfPoints) lo hi
        = (lo, (lo + hi) / 2)) ∧
    (getEndValue (integrateFromCenter mass ((lo' + hi') / 2) V g parity)
        g.getNumberOfPoints = 0 →
      getEndValue (integrateFromCenter mass lo' V g parity) g.getNumberOfPoints ≠ 0 →
      refineStep (fun E => getEndValue (integrateFromCenter mass E V g parity)
        g.getNumberOfPoints) lo' hi' = (lo', (lo' + hi') / 2)) :=
  ⟨fun h0 hl => refineStep_replaces_high_of_mid_zero _ lo hi h0 hl,
    fun h0 hl => refineStep_replaces_high_of_mid_zero _ lo' hi' h0 hl⟩

/-- Witness for C10: concrete ℚ inputs realizing an exactly-zero midpoint
end value with a nonzero low end value, for the forward integrator (bracket
[−1, 1], midpoint 0) and for the symmetric integrator (bracket [1, 3],
midpoint 2). -/
theorem refineStep_zero_tiebreak_witness :
    (getEndValue (integrate ratMathModel (HBAR * HBAR / 2) (((-1) + 1) / 2) [(0 : ℚ), 0]
        ⟨0, 1, 2⟩) (XGrid.getNumberOfPoints ⟨0, 1, 2⟩) = 0 ∧
      getEndValue (integrate ratMathModel (HBAR * HBAR / 2) (-1) [(0 : ℚ), 0] ⟨0, 1, 2⟩)
        (XGrid.getNumberOfPoints ⟨0, 1, 2⟩) ≠ 0 ∧
      refineStep (fun E => getEndValue (integrate ratMathModel (HBAR * HBAR / 2) E
        [(0 : ℚ), 0] ⟨0, 1, 2⟩) (XGrid.getNumberOfPoints ⟨0, 1, 2⟩)) (-1) 1
        = (-1, ((-1) + 1) / 2)) ∧
    (getEndValue (integrateFromCenter (HBAR * HBAR / 2) ((1 + 3) / 2) [(0 : ℚ), 0]
        ⟨0, 1, 2⟩ .symmetric) (XGrid.getNumberOfPoints ⟨0, 1, 2⟩) = 0 ∧
      getEndValue (integrateFromCenter (HBAR * HBAR / 2) 1 [(0 : ℚ), 0] ⟨0, 1, 2⟩
        .symmetric) (XGrid.getNumberOfPoints ⟨0, 1, 2⟩) ≠ 0 ∧
      refineStep (fun E => getEndValue (integrateFromCenter (HBAR * HBAR / 2) E
        [(0 : ℚ), 0] ⟨0, 1, 2⟩ .symmetric) (XGrid.getNumberOfPoints ⟨0, 1, 2⟩)) 1 3
        = (1, (1 + 3) / 2)) := by
  have h0s : getEndValue (integrate ratMathModel (HBAR * HBAR / 2) (((-1) + 1) / 2)
      [(0 : ℚ), 0] ⟨0, 1, 2⟩) (XGrid.getNumberOfPoints ⟨0, 1, 2⟩) = 0 := by
    norm_num [getEndValue, integrate, initialSeed, calculateK2, calculateNumerovFactors,
      integrateForwardFrom, ratMathModel, XGrid.getDx, XGrid.getLength,
      XGrid.getNumberOfPoints, HBAR]
  have hls : getEndValue (integrate ratMathModel (HBAR * HBAR / 2) (-1) [(0 : ℚ), 0]
      ⟨0, 1, 2⟩) (XGrid.getNumberOfPoints ⟨0, 1, 2⟩) ≠ 0 := by
    norm_num [getEndValue, integrate, initialSeed, calculateK2, calculateNumerovFactors,
      integrateForwardFrom, ratMathModel, XGrid.getDx, XGrid.getLength,
      XGrid.getNumberOfPoints, HBAR]
  have h0y : getEndValue (integrateFromCenter (HBAR * HBAR / 2) ((1 + 3) / 2) [(0 : ℚ), 0]
      ⟨0, 1, 2⟩ .symmetric) (XGrid.getNumberOfPoints ⟨0, 1, 2⟩) = 0 := by
    norm_num [getEndValue, integrateFromCenter, symIntegrateForward, calculateK2,
      calculateNumerovFactors, XGrid.getDx, XGrid.getLength, XGrid.getNumberOfPoints,
      XGrid.findCenterIndex, jsRound, HBAR]
  have hly : getEndValue (integrateFromCenter (HBAR * HBAR / 2) 1 [(0 : ℚ), 0]
      ⟨0, 1, 2⟩ .symmetric) (XGrid.getNumberOfPoints ⟨0, 1, 2⟩) ≠ 0 := by
    norm_num [getEndValue, integrateFromCenter, symIntegrateForward, calculateK2,
      calculateNumerovFactors, XGrid.getDx, XGrid.getLength, XGrid.getNumberOfPoints,
      XGrid.findCenterIndex, jsRound, HBAR]
  have h := refineStep_zero_tiebreak ratMathModel (HBAR * HBAR / 2) [(0 : ℚ), 0]
    ⟨0, 1, 2⟩ .symmetric (-1) 1 1 3
  exact ⟨⟨h0s, hls, h.1 h0s hls⟩, ⟨h0y, hly, h.2 h0y hly⟩⟩

set_option exponentiation.threshold 400 in
/-- Counterexample to C4: in `SymmetricNumerovIntegrator.integrateFromCenter`
a computed value of absolute value above 1e300 (here ψ₂ = 10³⁰¹, finite)
does not stop the recurrence and is not propagated into the remaining
entries: ψ₃ is the next recurrence value, not ψ₂. -/
theorem symmetric_guard_counterexample :
    VERY_LARGE_VALUE <
      |(integrateFromCenter (6 * (HBAR * HBAR)) 0 [(0 : ℚ), 0, 1 - 1 / 10 ^ 301, 0]
        ⟨0, 3, 4⟩ .symmetric).getD 2 0| ∧
    (integrateFromCenter (6 * (HBAR * HBAR)) 0 [(0 : ℚ), 0, 1 - 1 / 10 ^ 301, 0]
        ⟨0, 3, 4⟩ .symmetric).getD 3 0
      ≠ (integrateFromCenter (6 * (HBAR * HBAR)) 0 [(0 : ℚ), 0, 1 - 1 / 10 ^ 301, 0]
        ⟨0, 3, 4⟩ .symmetric).getD 2 0 := by
  have hout : integrateFromCenter (6 * (HBAR * HBAR)) 0 [(0 : ℚ), 0, 1 - 1 / 10 ^ 301, 0]
      ⟨0, 3, 4⟩ .symmetric = [1, 1, 10 ^ 301, 12 * 10 ^ 301 - 11] := by
    norm_num [integrateFromCenter, symIntegrateForward, numerovStep, calculateK2,
      calculateNumerovFactors, XGrid.getDx, XGrid.getLength, XGrid.findCenterIndex,
      jsRound, HBAR, List.range_succ]
  rw [hout]
  refine ⟨?_, by norm_num⟩
  rw [show ((([(1 : ℚ), 1, 10 ^ 301, 12 * 10 ^ 301 - 11]).getD 2 0) = 10 ^ 301) from rfl,
    abs_of_nonneg (by positivity : (0 : ℚ) ≤ 10 ^ 301)]
  norm_num [VERY_LARGE_VALUE]

/-- C4 (amended).  The symmetric integrator's rightward loop applies a
different guard from the forward integrator: it stops only when the newly
computed value is non-finite — in exact arithmetic, exactly when the
Numerov denominator 1 + f_{j+1} vanishes — and then fills all remaining
entries with the constant 1e100 (fillInfinity), not with the signed
overflowing value; while the denominators stay nonzero it reproduces the
recurrence values regardless of their magnitude. -/
theorem symIntegrateForward_guard_spec {K : Type} [LinearOrderedField K]
    (f : List K) (r : ℕ → K) :
    ∀ fuel j j₀, 1 ≤ j → j ≤ j₀ → j₀ < j + fuel →
      (∀ m, j ≤ m → m < j₀ →
        r (m + 1) = numerovStep (r m) (r (m - 1)) (f.getD m 0) (f.getD (m - 1) 0)
          (f.getD (m + 1) 0)) →
      (∀ m, j ≤ m → m < j₀ → 1 + f.getD (m + 1) 0 ≠ 0) →
      1 + f.getD (j₀ + 1) 0 = 0 →
      symIntegrateForward f fuel j (r (j - 1)) (r j)
        = (List.range' (j + 1) (j₀ - j)).map r
          ++ List.replicate (fuel - (j₀ - j)) ((10 : K) ^ 100) := by
  intro fuel
  induction fuel with
  | zero => intro j j₀ hj hjj hlt hstep hden htrig; omega
  | succ fuel ih =>
    intro j j₀ hj hjj hlt hstep hden htrig
    rw [symIntegrateForward]
    rcases eq_or_lt_of_le hjj with heq | hlt2
    · subst heq
      rw [if_pos htrig]
      simp
    · rw [if_neg (hden j le_rfl hlt2)]
      have hv : numerovStep (r j) (r (j - 1)) (f.getD j 0) (f.getD (j - 1) 0)
          (f.getD (j + 1) 0) = r (j + 1) := (hstep j le_rfl hlt2).symm
      simp only [hv]
      have htail := ih (j + 1) j₀ (by omega) (by omega) (by omega)
        (fun m hm1 hm2 => hstep m (by omega) hm2)
        (fun m hm1 hm2 => hden m (by omega) hm2)
        htrig
      rw [Nat.add_sub_cancel] at htail
      rw [htail]
      have h1 : j₀ - j = (j₀ - (j + 1)) + 1 := by omega
      have h2 : fuel - (j₀ - (j + 1)) = (fuel + 1) - (j₀ - j) := by omega
      rw [h1, List.range'_succ, h2]
      simp
      omega

/-- Witness for the amended C4: a vanishing denominator at the first loop
step fills the remaining two entries with 1e100. -/
theorem symIntegrateForward_guard_spec_witness :
    ((1 : ℕ) ≤ 1 ∧ (1 : ℕ) ≤ 1 ∧ (1 : ℕ) < 1 + 2 ∧
      1 + ([(0 : ℚ), 0, -1, 0].getD (1 + 1) 0) = 0) ∧
    symIntegrateForward [(0 : ℚ), 0, -1, 0] 2 1 ((fun _ => (1 : ℚ)) (1 - 1))
        ((fun _ => (1 : ℚ)) 1)
      = (List.range' (1 + 1) (1 - 1)).map (fun _ => (1 : ℚ))
        ++ List.replicate (2 - (1 - 1)) ((10 : ℚ) ^ 100) := by
  have htrig : 1 + ([(0 : ℚ), 0, -1, 0].getD (1 + 1) 0) = 0 := by norm_num
  exact ⟨⟨le_rfl, le_rfl, by omega, htrig⟩,
    symIntegrateForward_guard_spec [(0 : ℚ), 0, -1, 0] (fun _ => (1 : ℚ)) 2 1 1
      le_rfl le_rfl (by omega) (fun m hm1 hm2 => absurd hm2 (by omega))
      (fun m hm1 hm2 => absurd hm2 (by omega)) htrig⟩

/-- C3 (code bug evidence).  In 'simpson' mode the integral loop reads one
element past the end for every even-length input: on ψ = [1, 1], dx = 1 the
read of ψ[2] yields undefined, the squared term is NaN (modelled `none`),
so calculateNorm is NaN and normalize returns its input unchanged; and for
odd-length inputs the final trapezoidal term double-counts the last
interval (on ψ = [1, 1, 1], dx = 1 the result is 3, though the composite
Simpson value of these samples is 2). -/
theorem simpson_even_length_reads_out_of_bounds :
    calculateSimpsonIntegral [(1 : ℚ), 1] 1 = none ∧
    calculateNorm .simpson [(1 : ℚ), 1] 1 = none ∧
    normalize ratMathModel .simpson [(1 : ℚ), 1] 1 = [1, 1] ∧
    calculateSimpsonIntegral [(1 : ℚ), 1, 1] 1 = some 3 := by
  have h2 : calculateSimpsonIntegral [(1 : ℚ), 1] 1 = none := by
    rw [calculateSimpsonIntegral]
    norm_num
    rw [simpsonLoop]
    norm_num
  have h3 : calculateSimpsonIntegral [(1 : ℚ), 1, 1] 1 = some 3 := by
    rw [calculateSimpsonIntegral]
    norm_num
    rw [simpsonLoop]
    norm_num
    rw [simpsonLoop]
    norm_num
  refine ⟨h2, ?_, ?_, h3⟩
  · rw [calculateNorm, h2]
  · rw [normalize, h2]

/-!  The two energy-scan loops are instances of the one scan schema. -/

lemma stdScanLoop_eq_scanWith (M : MathModel K) (mass tolerance : K) (isRel : Bool)
    (nm : NormalizationMethod) (V : List K) (g : XGrid K)
    (energyStep energyMax : K) (refineFuel : ℕ) :
    ∀ fuel E st,
      stdScanLoop M mass tolerance isRel nm V g energyStep energyMax refineFuel fuel E st
        = scanWith (fun E' => integrate M mass E' V g)
            (fun lo hi => refine M mass tolerance isRel lo hi V g refineFuel)
            (fun psi => normalize M nm psi g.getDx) energyStep energyMax fuel E st := by
  intro fuel
  induction fuel with
  | zero => intro E st; rw [stdScanLoop, scanWith]
  | succ fuel ih =>
    intro E st
    rw [stdScanLoop, scanWith]
    by_cases hE : E ≤ energyMax
    · rw [if_pos hE, if_pos hE]
      simp only [ih]
    · rw [if_neg hE, if_neg hE]

lemma symScanLoop_eq_scanWith [FloorRing K] (M : MathModel K) (mass : K)
    (toleranceOverride : Option K) (nm : NormalizationMethod) (V : List K)
    (g : XGrid K) (parity : Parity) (energyStep energyMax : K) (refineFuel : ℕ) :
    ∀ fuel E st,
      symScanLoop M mass toleranceOverride nm V g parity energyStep energyMax
          refineFuel fuel E st
        = scanWith (fun E' => integrateFromCenter mass E' V g parity)
            (fun lo hi => refineEnergySymmetric mass lo hi V g parity
              toleranceOverride refineFuel)
            (fun psi => normalize M nm psi g.getDx) energyStep energyMax fuel E st := by
  intro fuel
  induction fuel with
  | zero => intro E st; rw [symScanLoop, scanWith]
  | succ fuel ih =>
    intro E st
    rw [symScanLoop, scanWith]
    by_cases hE : E ≤ energyMax
    · rw [if_pos hE, if_pos hE]
      simp only [ih]
    · rw [if_neg hE, if_neg hE]

/-- A scan whose remaining trial energies all stay at or below energyMax
cannot finish: it runs out of fuel (the loop would keep iterating). -/
lemma scanWith_fuel_exhausted (intg : K → List K) (refn : K → K → Option K)
    (nrm : List K → List K) (energyStep energyMax : K) (hstep : 0 ≤ energyStep) :
    ∀ (fuel : ℕ) (E : K) (st : ScanState K), E + (fuel : K) * energyStep ≤ energyMax →
      scanWith intg refn nrm energyStep energyMax fuel E st = none := by
  intro fuel
  induction fuel with
  | zero =>
    intro E st h
    rw [scanWith]
    rw [if_pos (by simpa using h)]
  | succ fuel ih =>
    intro E st h
    have hcast : (0 : K) ≤ ((fuel : K) + 1) * energyStep :=
      mul_nonneg (by positivity) hstep
    have hE : E ≤ energyMax := by push_cast at h; linarith
    rw [scanWith]
    rw [if_pos hE]
    simp only []
    split
    · rfl
    · apply ih
      push_cast at h ⊢
      linarith

/-- A scan that never detects a sign flip (every sampled sign from the
current energy on is 0 or the fixed value σ, and the running previous sign
is too) completes as soon as the trial energy passes energyMax, appending
nothing. -/
lemma scanWith_no_flip_completes (intg : K → List K) (refn : K → K → Option K)
    (nrm : List K → List K) (energyStep energyMax σ : K) (hstep : 0 ≤ energyStep) :
    ∀ (fuel : ℕ) (E : K) (st : ScanState K),
      (∀ E', E ≤ E' → E' ≤ energyMax →
        msign (getEndValue (intg E') (intg E').length) = 0 ∨
        msign (getEndValue (intg E') (intg E').length) = σ) →
      (st.prevSign = 0 ∨ st.prevSign = σ) →
      (∃ n : ℕ, n ≤ fuel ∧ energyMax < E + (n : K) * energyStep) →
      ∃ st', scanWith intg refn nrm energyStep energyMax fuel E st = some st'
        ∧ st'.energies = st.energies ∧ st'.wavefunctions = st.wavefunctions := by
  intro fuel
  induction fuel with
  | zero =>
    intro E st hsig hprev hterm
    obtain ⟨n, hn, hgt⟩ := hterm
    have hn0 : n = 0 := by omega
    subst hn0
    rw [scanWith]
    rw [if_neg (by push_cast at hgt; intro hc; linarith)]
    exact ⟨st, rfl, rfl, rfl⟩
  | succ fuel ih =>
    intro E st hsig hprev hterm
    by_cases hE : E ≤ energyMax
    · obtain ⟨n, hn, hgt⟩ := hterm
      have hn1 : 1 ≤ n := by
        by_contra hc
        have : n = 0 := by omega
        subst this
        push_cast at hgt
        linarith
      have hcs := hsig E le_rfl hE
      have hnof : ¬ (msign (getEndValue (intg E) (intg E).length) ≠ 0 ∧
          st.prevSign ≠ 0 ∧ msign (getEndValue (intg E) (intg E).length) ≠ st.prevSign) := by
        rintro ⟨h1, h2, h3⟩
        rcases hcs with hc | hc
        · exact h1 hc
        · rcases hprev with hp | hp
          · exact h2 hp
          · exact h3 (hc.trans hp.symm)
      rw [scanWith]
      rw [if_pos hE]
      simp only [if_neg hnof]
      have hterm' : ∃ m : ℕ, m ≤ fuel ∧ energyMax < (E + energyStep) + (m : K) * energyStep := by
        refine ⟨n - 1, by omega, ?_⟩
        have : ((n - 1 : ℕ) : K) = (n : K) - 1 := by
          rw [Nat.cast_sub hn1]; norm_num
        rw [this]
        ring_nf
        ring_nf at hgt
        linarith
      have hsig' : ∀ E', E + energyStep ≤ E' → E' ≤ energyMax →
          msign (getEndValue (intg E') (intg E').length) = 0 ∨
          msign (getEndValue (intg E') (intg E').length) = σ :=
        fun E' h1 h2 => hsig E' (by linarith) h2
      by_cases hcz : msign (getEndValue (intg E) (intg E).length) ≠ 0
      · rw [if_pos hcz]
        have hprev' : msign (getEndValue (intg E) (intg E).length) = 0 ∨
            msign (getEndValue (intg E) (intg E).length) = σ := hcs
        obtain ⟨st', heq, he, hw⟩ := ih (E + energyStep)
          ⟨st.energies, st.wavefunctions, msign (getEndValue (intg E) (intg E).length), E⟩
          hsig' (by rcases hcs with hc | hc; exact Or.inl hc; exact Or.inr hc) hterm'
        exact ⟨st', heq, he, hw⟩
      · rw [if_neg hcz]
        obtain ⟨st', heq, he, hw⟩ := ih (E + energyStep)
          ⟨st.energies, st.wavefunctions, st.prevSign, st.prevEnergy⟩
          hsig' hprev hterm'
        exact ⟨st', heq, he, hw⟩
    · rw [scanWith]
      rw [if_neg hE]
      exact ⟨st, rfl, rfl, rfl⟩

/-- A refined energy never leaves its bracket. -/
lemma refine_some_mem (M : MathModel K) (mass tolerance : K) (isRel : Bool)
    (lo hi : K) (V : List K) (g : XGrid K) (fuel : ℕ) (e : K)
    (h : lo ≤ hi) (hret : refine M mass tolerance isRel lo hi V g fuel = some e) :
    lo ≤ e ∧ e ≤ hi := by
  rw [refine_eq_refineLoop] at hret
  obtain ⟨n, _, _, _, hE⟩ := refineLoop_some_spec _ _ _ _ _ _ hret
  have hnest := refineIterates_nested (refineEndValue M mass V g) lo hi h n
  constructor
  · rw [hE]; linarith [hnest.1, hnest.2.1, hnest.2.2]
  · rw [hE]; linarith [hnest.1, hnest.2.1, hnest.2.2]

/-- The scan only ever appends energies refined inside the advancing
bracket, so a successful scan leaves a sorted energy list. -/
lemma scanWith_sorted (intg : K → List K) (refn : K → K → Option K)
    (nrm : List K → List K) (energyStep energyMax : K) (hstep : 0 ≤ energyStep)
    (hrefn : ∀ lo hi e, lo ≤ hi → refn lo hi = some e → lo ≤ e ∧ e ≤ hi) :
    ∀ (fuel : ℕ) (E : K) (st st' : ScanState K),
      st.energies.Sorted (· ≤ ·) →
      (∀ e ∈ st.energies, e ≤ st.prevEnergy) →
      st.prevEnergy ≤ E →
      scanWith intg refn nrm energyStep energyMax fuel E st = some st' →
      st'.energies.Sorted (· ≤ ·) := by
  intro fuel
  induction fuel with
  | zero =>
    intro E st st' hsort hbound hprev hret
    rw [scanWith] at hret
    by_cases hE : E ≤ energyMax
    · rw [if_pos hE] at hret; exact absurd hret (by simp)
    · rw [if_neg hE] at hret
      obtain rfl : st = st' := by simpa using hret
      exact hsort
  | succ fuel ih =>
    intro E st st' hsort hbound hprev hret
    by_cases hE : E ≤ energyMax
    · rw [scanWith, if_pos hE] at hret
      simp only [] at hret
      by_cases hbr : msign (getEndValue (intg E) (intg E).length) ≠ 0 ∧
          st.prevSign ≠ 0 ∧ msign (getEndValue (intg E) (intg E).length) ≠ st.prevSign
      · rw [if_pos hbr] at hret
        cases hre : refn st.prevEnergy E with
        | none => rw [hre] at hret; exact absurd hret (by simp)
        | some re =>
          rw [hre] at hret
          simp only [] at hret
          rw [if_pos hbr.1] at hret
          have hmem := hrefn st.prevEnergy E re hprev hre
          refine ih (E + energyStep)
            ⟨st.energies ++ [re], st.wavefunctions ++ [nrm (intg re)],
              msign (getEndValue (intg E) (intg E).length), E⟩ st' ?_ ?_ ?_ hret
          · refine List.pairwise_append.mpr ⟨hsort, by simp, ?_⟩
            intro a ha b hb
            rw [List.mem_singleton] at hb
            subst hb
            exact le_trans (hbound a ha) hmem.1
          · intro e he
            rw [List.mem_append, List.mem_singleton] at he
            rcases he with he | rfl
            · exact le_trans (hbound e he) hprev
            · exact hmem.2
          · show E ≤ E + energyStep
            linarith
      · rw [if_neg hbr] at hret
        simp only [] at hret
        by_cases hcz : msign (getEndValue (intg E) (intg E).length) ≠ 0
        · rw [if_pos hcz] at hret
          refine ih (E + energyStep)
            ⟨st.energies, st.wavefunctions,
              msign (getEndValue (intg E) (intg E).length), E⟩ st' hsort ?_ ?_ hret
          · intro e he
            exact le_trans (hbound e he) hprev
          · show E ≤ E + energyStep
            linarith
        · rw [if_neg hcz] at hret
          refine ih (E + energyStep)
            ⟨st.energies, st.wavefunctions, st.prevSign, st.prevEnergy⟩ st'
            hsort hbound ?_ hret
          show st.prevEnergy ≤ E + energyStep
          linarith
    · rw [scanWith, if_neg hE] at hret
      obtain rfl : st = st' := by simpa using hret
      exact hsort

/-- When the trial energy is already past energyMax, the scan exits at
once with the state unchanged, and in particular with empty result lists
if the state is the initial one. -/
lemma scanWith_exit (intg : K → List K) (refn : K → K → Option K)
    (nrm : List K → List K) (energyStep energyMax : K) (fuel : ℕ) (E : K)
    (st : ScanState K) (hE : ¬ E ≤ energyMax) :
    scanWith intg refn nrm energyStep energyMax fuel E st = some st := by
  cases fuel <;> rw [scanWith] <;> rw [if_neg hE]

/-- C6.  For every solve call, the energies of a returned result are
sorted in non-decreasing order: the scan's brackets advance monotonically
and a refined energy never leaves its bracket (second conjunct). -/
theorem solve_energies_sorted {K : Type} [LinearOrderedField K]
    (M : MathModel K) (mass : K) (energyTolerance : Option K)
    (nm : NormalizationMethod) (potential : K → K) (cfg : GridConfig K)
    (energyMin energyMax : K) (scanFuel refineFuel : ℕ) (res : BoundStateResult K)
    (hret : solve M mass energyTolerance nm potential cfg energyMin energyMax
      scanFuel refineFuel = some res) :
    res.energies.Sorted (· ≤ ·) ∧
    (∀ (tolerance : K) (isRel : Bool) (lo hi e : K) (fuel' : ℕ), lo ≤ hi →
      refine M mass tolerance isRel lo hi
          ((XGrid.getArray ⟨cfg.xMin, cfg.xMax, cfg.numPoints⟩).map potential)
          ⟨cfg.xMin, cfg.xMax, cfg.numPoints⟩ fuel' = some e →
      lo ≤ e ∧ e ≤ hi) := by
  refine ⟨?_, fun tolerance isRel lo hi e fuel' hle hr =>
    refine_some_mem M mass tolerance isRel lo hi _ _ fuel' e hle hr⟩
  simp only [solve, findBoundStates, Option.map_eq_some'] at hret
  obtain ⟨p, hp, hres⟩ := hret
  obtain ⟨st', hst', hps⟩ := hp
  rw [stdScanLoop_eq_scanWith] at hst'
  have henergies : res.energies = st'.energies := by
    rw [← hres, ← hps]
  rw [henergies]
  by_cases hmm : energyMin ≤ energyMax
  · have hstep : (0 : K) ≤ (energyMax - energyMin) / (ENERGY_SCAN_STEPS : K) := by
      apply div_nonneg (by linarith)
      norm_num [ENERGY_SCAN_STEPS]
    refine scanWith_sorted _ _ _ _ _ hstep
      (fun lo hi e hle hr => (refine_some_mem M mass _ _ lo hi _ _ _ e hle hr))
      scanFuel _ _ st' (by simp) (by simp) (by simp only []; linarith) hst'
  · have hval : ((ENERGY_SCAN_STEPS : ℕ) : K) = 200 := by norm_num [ENERGY_SCAN_STEPS]
    have h200 : (0 : K) < (ENERGY_SCAN_STEPS : K) := by rw [hval]; norm_num
    have hw : energyMax - energyMin < 0 := by linarith [not_le.mp hmm]
    have key : energyMax - energyMin < (energyMax - energyMin) / (ENERGY_SCAN_STEPS : K) := by
      rw [lt_div_iff₀ h200, hval]
      nlinarith
    have hE : ¬ (energyMin + (energyMax - energyMin) / (ENERGY_SCAN_STEPS : K) ≤ energyMax) := by
      intro hcontra
      linarith
    rw [scanWith_exit _ _ _ _ _ _ _ _ hE] at hst'
    have : st'.energies = [] := by
      have := (Option.some_injective _ hst')
      rw [← this]
    rw [this]
    simp

/-- Witness for C6: a concrete solve call (empty scan range) that returns,
to which the theorem applies. -/
theorem solve_energies_sorted_witness :
    (solve ratMathModel 0 none .trapezoidal (fun _ => (0 : ℚ)) ⟨0, 1, 2⟩ 1 0 5 5
      = some ⟨[], [], [0, 1], "numerov"⟩) ∧
    ((⟨[], [], [0, 1], "numerov"⟩ : BoundStateResult ℚ).energies.Sorted (· ≤ ·) ∧
    (∀ (tolerance : ℚ) (isRel : Bool) (lo hi e : ℚ) (fuel' : ℕ), lo ≤ hi →
      refine ratMathModel 0 tolerance isRel lo hi
          ((XGrid.getArray ⟨(0 : ℚ), 1, 2⟩).map (fun _ => (0 : ℚ)))
          ⟨(0 : ℚ), 1, 2⟩ fuel' = some e →
      lo ≤ e ∧ e ≤ hi)) := by
  have hret : solve ratMathModel 0 none .trapezoidal (fun _ => (0 : ℚ)) ⟨0, 1, 2⟩ 1 0 5 5
      = some ⟨[], [], [0, 1], "numerov"⟩ := by
    norm_num [solve, findBoundStates, stdScanLoop, integrate, initialSeed, calculateK2,
      calculateNumerovFactors, integrateForwardFrom, getEndValue, msign, ratMathModel,
      XGrid.getArray, XGrid.getDx, XGrid.getLength, ENERGY_SCAN_STEPS, HBAR,
      List.range_succ]
  exact ⟨hret, solve_energies_sorted ratMathModel 0 none .trapezoidal
    (fun _ => (0 : ℚ)) ⟨0, 1, 2⟩ 1 0 5 5 ⟨[], [], [0, 1], "numerov"⟩ hret⟩

/-- A scan whose sampling order index is k (the trial energy is
energyMin + k·energyStep) never detects a bracket when the signs of the
sampled right-boundary values never flip between consecutive nonzero
samples; the running previous sign is always the sign of the most recent
sample not followed by a nonzero one. -/
lemma scanWith_sample_no_flip (intg : K → List K) (refn : K → K → Option K)
    (nrm : List K → List K) (emin energyStep emax : K) (kmax : ℕ)
    (hin : ∀ k : ℕ, 1 ≤ k → emin + (k : K) * energyStep ≤ emax → k ≤ kmax)
    (hnoflip : ∀ j k : ℕ, j < k → k ≤ kmax →
      msign (getEndValue (intg (emin + (j : K) * energyStep))
        (intg (emin + (j : K) * energyStep)).length) ≠ 0 →
      msign (getEndValue (intg (emin + (k : K) * energyStep))
        (intg (emin + (k : K) * energyStep)).length) ≠ 0 →
      (∀ i : ℕ, j < i → i < k →
        msign (getEndValue (intg (emin + (i : K) * energyStep))
          (intg (emin + (i : K) * energyStep)).length) = 0) →
      msign (getEndValue (intg (emin + (j : K) * energyStep))
        (intg (emin + (j : K) * energyStep)).length)
        = msign (getEndValue (intg (emin + (k : K) * energyStep))
          (intg (emin + (k : K) * energyStep)).length)) :
    ∀ (fuel k : ℕ) (st : ScanState K), 1 ≤ k → kmax + 1 ≤ k + fuel →
      (∃ j : ℕ, j < k ∧
        st.prevSign = msign (getEndValue (intg (emin + (j : K) * energyStep))
          (intg (emin + (j : K) * energyStep)).length) ∧
        (∀ i : ℕ, j < i → i < k →
          msign (getEndValue (intg (emin + (i : K) * energyStep))
            (intg (emin + (i : K) * energyStep)).length) = 0)) →
      ∃ st', scanWith intg refn nrm energyStep emax fuel (emin + (k : K) * energyStep) st
          = some st' ∧ st'.energies = st.energies ∧ st'.wavefunctions = st.wavefunctions := by
  intro fuel
  induction fuel with
  | zero =>
    intro k st hk1 hkf hinv
    have hgt : ¬ emin + (k : K) * energyStep ≤ emax := by
      intro hc
      have := hin k hk1 hc
      omega
    rw [scanWith_exit _ _ _ _ _ _ _ _ hgt]
    exact ⟨st, rfl, rfl, rfl⟩
  | succ fuel ih =>
    intro k st hk1 hkf hinv
    by_cases hE : emin + (k : K) * energyStep ≤ emax
    · have hkmax : k ≤ kmax := hin k hk1 hE
      obtain ⟨j, hjk, hprev, hzero⟩ := hinv
      have hnobr : ¬ (msign (getEndValue (intg (emin + (k : K) * energyStep))
            (intg (emin + (k : K) * energyStep)).length) ≠ 0 ∧
          st.prevSign ≠ 0 ∧
          msign (getEndValue (intg (emin + (k : K) * energyStep))
            (intg (emin + (k : K) * energyStep)).length) ≠ st.prevSign) := by
        rintro ⟨h1, h2, h3⟩
        rw [hprev] at h2 h3
        exact h3 (hnoflip j k hjk hkmax h2 h1 hzero).symm
      rw [scanWith]
      rw [if_pos hE]
      simp only [if_neg hnobr]
      have harith : emin + (k : K) * energyStep + energyStep
          = emin + ((k + 1 : ℕ) : K) * energyStep := by push_cast; ring
      by_cases hcz : msign (getEndValue (intg (emin + (k : K) * energyStep))
          (intg (emin + (k : K) * energyStep)).length) ≠ 0
      · rw [if_pos hcz, harith]
        exact ih (k + 1)
          ⟨st.energies, st.wavefunctions,
            msign (getEndValue (intg (emin + (k : K) * energyStep))
              (intg (emin + (k : K) * energyStep)).length),
            emin + (k : K) * energyStep⟩
          (by omega) (by omega)
          ⟨k, by omega, rfl, fun i hi1 hi2 => by omega⟩
      · rw [if_neg hcz, harith]
        refine ih (k + 1) ⟨st.energies, st.wavefunctions, st.prevSign, st.prevEnergy⟩
          (by omega) (by omega) ⟨j, by omega, hprev, ?_⟩
        intro i hi1 hi2
        rcases Nat.lt_or_ge i k with h | h
        · exact hzero i hi1 h
        · have hik : i = k := by omega
          subst hik
          exact not_ne_iff.mp hcz
    · rw [scanWith_exit _ _ _ _ _ _ _ _ hE]
      exact ⟨st, rfl, rfl, rfl⟩

/-- C9.  If across the entire energy scan the sign of the wavefunction's
right-boundary value never flips between consecutive nonzero samples (the
samples are the 201 energies energyMin + k·step, k = 0 .. 200, with
step = (energyMax − energyMin)/200: whenever two samples j < k are both
nonzero-signed and every sample strictly between them has sign zero, their
signs agree — so no sign-change bracket exists), then solve returns
normally with empty energies and wavefunctions, provided the scan has a
valid range (energyMin < energyMax) and at least the 200 iterations of
fuel the scan needs. -/
theorem solve_no_sign_flip_returns_empty {K : Type} [LinearOrderedField K]
    (M : MathModel K) (mass : K) (energyTolerance : Option K)
    (nm : NormalizationMethod) (potential : K → K) (cfg : GridConfig K)
    (energyMin energyMax : K) (scanFuel refineFuel : ℕ)
    (hlt : energyMin < energyMax) (hfuel : 200 ≤ scanFuel)
    (hnoflip : ∀ j k : ℕ, j < k → k ≤ 200 →
      msign (getEndValue
          (integrate M mass
            (energyMin + (j : K) * ((energyMax - energyMin) / (ENERGY_SCAN_STEPS : K)))
            ((XGrid.getArray ⟨cfg.xMin, cfg.xMax, cfg.numPoints⟩).map potential)
            ⟨cfg.xMin, cfg.xMax, cfg.numPoints⟩)
          (integrate M mass
            (energyMin + (j : K) * ((energyMax - energyMin) / (ENERGY_SCAN_STEPS : K)))
            ((XGrid.getArray ⟨cfg.xMin, cfg.xMax, cfg.numPoints⟩).map potential)
            ⟨cfg.xMin, cfg.xMax, cfg.numPoints⟩).length) ≠ 0 →
      msign (getEndValue
          (integrate M mass
            (energyMin + (k : K) * ((energyMax - energyMin) / (ENERGY_SCAN_STEPS : K)))
            ((XGrid.getArray ⟨cfg.xMin, cfg.xMax, cfg.numPoints⟩).map potential)
            ⟨cfg.xMin, cfg.xMax, cfg.numPoints⟩)
          (integrate M mass
            (energyMin + (k : K) * ((energyMax - energyMin) / (ENERGY_SCAN_STEPS : K)))
            ((XGrid.getArray ⟨cfg.xMin, cfg.xMax, cfg.numPoints⟩).map potential)
            ⟨cfg.xMin, cfg.xMax, cfg.numPoints⟩).length) ≠ 0 →
      (∀ i : ℕ, j < i → i < k →
        msign (getEndValue
            (integrate M mass
              (energyMin + (i : K) * ((energyMax - energyMin) / (ENERGY_SCAN_STEPS : K)))
              ((XGrid.getArray ⟨cfg.xMin, cfg.xMax, cfg.numPoints⟩).map potential)
              ⟨cfg.xMin, cfg.xMax, cfg.numPoints⟩)
            (integrate M mass
              (energyMin + (i : K) * ((energyMax - energyMin) / (ENERGY_SCAN_STEPS : K)))
              ((XGrid.getArray ⟨cfg.xMin, cfg.xMax, cfg.numPoints⟩).map potential)
              ⟨cfg.xMin, cfg.xMax, cfg.numPoints⟩).length) = 0) →
      msign (getEndValue
          (integrate M mass
            (energyMin + (j : K) * ((energyMax - energyMin) / (ENERGY_SCAN_STEPS : K)))
            ((XGrid.getArray ⟨cfg.xMin, cfg.xMax, cfg.numPoints⟩).map potential)
            ⟨cfg.xMin, cfg.xMax, cfg.numPoints⟩)
          (integrate M mass
            (energyMin + (j : K) * ((energyMax - energyMin) / (ENERGY_SCAN_STEPS : K)))
            ((XGrid.getArray ⟨cfg.xMin, cfg.xMax, cfg.numPoints⟩).map potential)
            ⟨cfg.xMin, cfg.xMax, cfg.numPoints⟩).length)
        = msign (getEndValue
            (integrate M mass
              (energyMin + (k : K) * ((energyMax - energyMin) / (ENERGY_SCAN_STEPS : K)))
              ((XGrid.getArray ⟨cfg.xMin, cfg.xMax, cfg.numPoints⟩).map potential)
              ⟨cfg.xMin, cfg.xMax, cfg.numPoints⟩)
            (integrate M mass
              (energyMin + (k : K) * ((energyMax - energyMin) / (ENERGY_SCAN_STEPS : K)))
              ((XGrid.getArray ⟨cfg.xMin, cfg.xMax, cfg.numPoints⟩).map potential)
              ⟨cfg.xMin, cfg.xMax, cfg.numPoints⟩).length)) :
    ∃ res, solve M mass energyTolerance nm potential cfg energyMin energyMax
        scanFuel refineFuel = some res
      ∧ res.energies = [] ∧ res.wavefunctions = [] := by
  have hval : ((ENERGY_SCAN_STEPS : ℕ) : K) = 200 := by norm_num [ENERGY_SCAN_STEPS]
  have hw : (0 : K) < energyMax - energyMin := by linarith
  have hstep : (0 : K) ≤ (energyMax - energyMin) / (ENERGY_SCAN_STEPS : K) := by
    apply div_nonneg (by linarith)
    rw [hval]; norm_num
  have hin : ∀ k : ℕ, 1 ≤ k →
      energyMin + (k : K) * ((energyMax - energyMin) / (ENERGY_SCAN_STEPS : K)) ≤ energyMax →
      k ≤ 200 := by
    intro k hk1 hc
    by_contra hgt
    have h201 : ((201 : ℕ) : K) ≤ (k : K) := Nat.cast_le.mpr (by omega)
    have hstep2 : (0 : K) < (energyMax - energyMin) / (ENERGY_SCAN_STEPS : K) := by
      apply div_pos hw
      rw [hval]; norm_num
    have hmul : (201 : K) * ((energyMax - energyMin) / (ENERGY_SCAN_STEPS : K))
        ≤ (k : K) * ((energyMax - energyMin) / (ENERGY_SCAN_STEPS : K)) := by
      apply mul_le_mul_of_nonneg_right _ hstep
      push_cast at h201 ⊢
      linarith
    have hsum : energyMin + (201 : K) * ((energyMax - energyMin) / (ENERGY_SCAN_STEPS : K))
        = energyMax + (energyMax - energyMin) / (ENERGY_SCAN_STEPS : K) := by
      rw [hval]
      field_simp
      ring
    linarith
  have hcomplete := scanWith_sample_no_flip
    (fun E' => integrate M mass E'
      ((XGrid.getArray ⟨cfg.xMin, cfg.xMax, cfg.numPoints⟩).map potential)
      ⟨cfg.xMin, cfg.xMax, cfg.numPoints⟩)
    (fun lo hi => refine M mass (energyTolerance.getD (1 / 10 ^ 4))
      energyTolerance.isNone lo hi
      ((XGrid.getArray ⟨cfg.xMin, cfg.xMax, cfg.numPoints⟩).map potential)
      ⟨cfg.xMin, cfg.xMax, cfg.numPoints⟩ refineFuel)
    (fun psi => normalize M nm psi (XGrid.getDx ⟨cfg.xMin, cfg.xMax, cfg.numPoints⟩))
    energyMin ((energyMax - energyMin) / (ENERGY_SCAN_STEPS : K)) energyMax 200
    hin hnoflip scanFuel 1
    ⟨[], [], msign (getEndValue
        (integrate M mass energyMin
          ((XGrid.getArray ⟨cfg.xMin, cfg.xMax, cfg.numPoints⟩).map potential)
          ⟨cfg.xMin, cfg.xMax, cfg.numPoints⟩)
        (integrate M mass energyMin
          ((XGrid.getArray ⟨cfg.xMin, cfg.xMax, cfg.numPoints⟩).map potential)
          ⟨cfg.xMin, cfg.xMax, cfg.numPoints⟩).length), energyMin⟩
    le_rfl (by omega)
    ⟨0, by omega, by
      have h0 : energyMin + ((0 : ℕ) : K) * ((energyMax - energyMin) / (ENERGY_SCAN_STEPS : K))
          = energyMin := by push_cast; ring
      rw [h0], fun i hi1 hi2 => by omega⟩
  obtain ⟨st', hst', he, hwf⟩ := hcomplete
  have h1 : energyMin + ((1 : ℕ) : K) * ((energyMax - energyMin) / (ENERGY_SCAN_STEPS : K))
      = energyMin + (energyMax - energyMin) / (ENERGY_SCAN_STEPS : K) := by push_cast; ring
  rw [h1] at hst'
  refine ⟨⟨[], [], (XGrid.getArray ⟨cfg.xMin, cfg.xMax, cfg.numPoints⟩), "numerov"⟩, ?_, rfl, rfl⟩
  simp only [solve, findBoundStates]
  rw [stdScanLoop_eq_scanWith, hst']
  simp [he, hwf]

/-- Witness for C9: with zero mass over ℚ the right-boundary value is 0 at
every sampled energy, so no pair of nonzero-signed samples exists and the
solve call returns an empty result. -/
theorem solve_no_sign_flip_returns_empty_witness :
    ((0 : ℚ) < 1 ∧ (200 : ℕ) ≤ 200 ∧
      (∀ j k : ℕ, j < k → k ≤ 200 →
        msign (getEndValue
            (integrate ratMathModel 0
              (0 + (j : ℚ) * ((1 - 0) / (ENERGY_SCAN_STEPS : ℚ)))
              ((XGrid.getArray ⟨(0 : ℚ), 1, 2⟩).map (fun _ => (0 : ℚ))) ⟨(0 : ℚ), 1, 2⟩)
            (integrate ratMathModel 0
              (0 + (j : ℚ) * ((1 - 0) / (ENERGY_SCAN_STEPS : ℚ)))
              ((XGrid.getArray ⟨(0 : ℚ), 1, 2⟩).map (fun _ => (0 : ℚ)))
              ⟨(0 : ℚ), 1, 2⟩).length) ≠ 0 →
        msign (getEndValue
            (integrate ratMathModel 0
              (0 + (k : ℚ) * ((1 - 0) / (ENERGY_SCAN_STEPS : ℚ)))
              ((XGrid.getArray ⟨(0 : ℚ), 1, 2⟩).map (fun _ => (0 : ℚ))) ⟨(0 : ℚ), 1, 2⟩)
            (integrate ratMathModel 0
              (0 + (k : ℚ) * ((1 - 0) / (ENERGY_SCAN_STEPS : ℚ)))
              ((XGrid.getArray ⟨(0 : ℚ), 1, 2⟩).map (fun _ => (0 : ℚ)))
              ⟨(0 : ℚ), 1, 2⟩).length) ≠ 0 →
        (∀ i : ℕ, j < i → i < k →
          msign (getEndValue
              (integrate ratMathModel 0
                (0 + (i : ℚ) * ((1 - 0) / (ENERGY_SCAN_STEPS : ℚ)))
                ((XGrid.getArray ⟨(0 : ℚ), 1, 2⟩).map (fun _ => (0 : ℚ))) ⟨(0 : ℚ), 1, 2⟩)
              (integrate ratMathModel 0
                (0 + (i : ℚ) * ((1 - 0) / (ENERGY_SCAN_STEPS : ℚ)))
                ((XGrid.getArray ⟨(0 : ℚ), 1, 2⟩).map (fun _ => (0 : ℚ)))
                ⟨(0 : ℚ), 1, 2⟩).length) = 0) →
        msign (getEndValue
            (integrate ratMathModel 0
              (0 + (j : ℚ) * ((1 - 0) / (ENERGY_SCAN_STEPS : ℚ)))
              ((XGrid.getArray ⟨(0 : ℚ), 1, 2⟩).map (fun _ => (0 : ℚ))) ⟨(0 : ℚ), 1, 2⟩)
            (integrate ratMathModel 0
              (0 + (j : ℚ) * ((1 - 0) / (ENERGY_SCAN_STEPS : ℚ)))
              ((XGrid.getArray ⟨(0 : ℚ), 1, 2⟩).map (fun _ => (0 : ℚ)))
              ⟨(0 : ℚ), 1, 2⟩).length)
          = msign (getEndValue
              (integrate ratMathModel 0
                (0 + (k : ℚ) * ((1 - 0) / (ENERGY_SCAN_STEPS : ℚ)))
                ((XGrid.getArray ⟨(0 : ℚ), 1, 2⟩).map (fun _ => (0 : ℚ))) ⟨(0 : ℚ), 1, 2⟩)
              (integrate ratMathModel 0
                (0 + (k : ℚ) * ((1 - 0) / (ENERGY_SCAN_STEPS : ℚ)))
                ((XGrid.getArray ⟨(0 : ℚ), 1, 2⟩).map (fun _ => (0 : ℚ)))
                ⟨(0 : ℚ), 1, 2⟩).length))) ∧
    (∃ res, solve ratMathModel 0 none .trapezoidal (fun _ => (0 : ℚ)) ⟨0, 1, 2⟩ 0 1 200 0
        = some res ∧ res.energies = [] ∧ res.wavefunctions = []) := by
  have hend : ∀ E' : ℚ, integrate ratMathModel 0 E'
      ((XGrid.getArray ⟨(0 : ℚ), 1, 2⟩).map (fun _ => (0 : ℚ))) ⟨(0 : ℚ), 1, 2⟩ = [0, 0] := by
    intro E'
    norm_num [integrate, initialSeed, calculateK2, calculateNumerovFactors,
      integrateForwardFrom, ratMathModel, XGrid.getArray, XGrid.getDx, XGrid.getLength,
      HBAR, List.range_succ]
  have hzero : ∀ E' : ℚ, msign (getEndValue
      (integrate ratMathModel 0 E'
        ((XGrid.getArray ⟨(0 : ℚ), 1, 2⟩).map (fun _ => (0 : ℚ))) ⟨(0 : ℚ), 1, 2⟩)
      (integrate ratMathModel 0 E'
        ((XGrid.getArray ⟨(0 : ℚ), 1, 2⟩).map (fun _ => (0 : ℚ)))
        ⟨(0 : ℚ), 1, 2⟩).length) = 0 := by
    intro E'
    rw [hend E']
    norm_num [getEndValue, msign]
  have hnoflip : ∀ j k : ℕ, j < k → k ≤ 200 →
      msign (getEndValue
          (integrate ratMathModel 0
            (0 + (j : ℚ) * ((1 - 0) / (ENERGY_SCAN_STEPS : ℚ)))
            ((XGrid.getArray ⟨(0 : ℚ), 1, 2⟩).map (fun _ => (0 : ℚ))) ⟨(0 : ℚ), 1, 2⟩)
          (integrate ratMathModel 0
            (0 + (j : ℚ) * ((1 - 0) / (ENERGY_SCAN_STEPS : ℚ)))
            ((XGrid.getArray ⟨(0 : ℚ), 1, 2⟩).map (fun _ => (0 : ℚ)))
            ⟨(0 : ℚ), 1, 2⟩).length) ≠ 0 →
      msign (getEndValue
          (integrate ratMathModel 0
            (0 + (k : ℚ) * ((1 - 0) / (ENERGY_SCAN_STEPS : ℚ)))
            ((XGrid.getArray ⟨(0 : ℚ), 1, 2⟩).map (fun _ => (0 : ℚ))) ⟨(0 : ℚ), 1, 2⟩)
          (integrate ratMathModel 0
            (0 + (k : ℚ) * ((1 - 0) / (ENERGY_SCAN_STEPS : ℚ)))
            ((XGrid.getArray ⟨(0 : ℚ), 1, 2⟩).map (fun _ => (0 : ℚ)))
            ⟨(0 : ℚ), 1, 2⟩).length) ≠ 0 →
      (∀ i : ℕ, j < i → i < k →
        msign (getEndValue
            (integrate ratMathModel 0
              (0 + (i : ℚ) * ((1 - 0) / (ENERGY_SCAN_STEPS : ℚ)))
              ((XGrid.getArray ⟨(0 : ℚ), 1, 2⟩).map (fun _ => (0 : ℚ))) ⟨(0 : ℚ), 1, 2⟩)
            (integrate ratMathModel 0
              (0 + (i : ℚ) * ((1 - 0) / (ENERGY_SCAN_STEPS : ℚ)))
              ((XGrid.getArray ⟨(0 : ℚ), 1, 2⟩).map (fun _ => (0 : ℚ)))
              ⟨(0 : ℚ), 1, 2⟩).length) = 0) →
      msign (getEndValue
          (integrate ratMathModel 0
            (0 + (j : ℚ) * ((1 - 0) / (ENERGY_SCAN_STEPS : ℚ)))
            ((XGrid.getArray ⟨(0 : ℚ), 1, 2⟩).map (fun _ => (0 : ℚ))) ⟨(0 : ℚ), 1, 2⟩)
          (integrate ratMathModel 0
            (0 + (j : ℚ) * ((1 - 0) / (ENERGY_SCAN_STEPS : ℚ)))
            ((XGrid.getArray ⟨(0 : ℚ), 1, 2⟩).map (fun _ => (0 : ℚ)))
            ⟨(0 : ℚ), 1, 2⟩).length)
        = msign (getEndValue
            (integrate ratMathModel 0
              (0 + (k : ℚ) * ((1 - 0) / (ENERGY_SCAN_STEPS : ℚ)))
              ((XGrid.getArray ⟨(0 : ℚ), 1, 2⟩).map (fun _ => (0 : ℚ))) ⟨(0 : ℚ), 1, 2⟩)
            (integrate ratMathModel 0
              (0 + (k : ℚ) * ((1 - 0) / (ENERGY_SCAN_STEPS : ℚ)))
              ((XGrid.getArray ⟨(0 : ℚ), 1, 2⟩).map (fun _ => (0 : ℚ)))
              ⟨(0 : ℚ), 1, 2⟩).length) := by
    intro j k h1 h2 hj hk hbetween
    exact absurd (hzero _) hj
  exact ⟨⟨by norm_num, le_rfl, hnoflip⟩,
    solve_no_sign_flip_returns_empty ratMathModel 0 none .trapezoidal
      (fun _ => (0 : ℚ)) ⟨0, 1, 2⟩ 0 1 200 0 (by norm_num) le_rfl hnoflip⟩

/-- C7 (amended).  The standard search and the symmetric variant share one
scan control flow: both loops are instances of the single schema
`scanWith`, differing in the integrator and the refiner they plug in — but
not in step count alone: `findBoundStates` advances through
ENERGY_SCAN_STEPS = 200 equal energy increments from energyMin to
energyMax, while `findBoundStatesSymmetric` advances through 1000 equal
increments. -/
theorem scan_variants_control_flow {K : Type} [LinearOrderedField K] [FloorRing K]
    (M : MathModel K) (mass tolerance : K) (isRel : Bool)
    (energyTolerance : Option K) (nm : NormalizationMethod) (V : List K)
    (g : XGrid K) (parity : Parity) (energyStep energyMax energyMin : K)
    (scanFuel refineFuel : ℕ) :
    ENERGY_SCAN_STEPS = 200 ∧
    (∀ (fuel : ℕ) (E : K) (st : ScanState K),
      stdScanLoop M mass tolerance isRel nm V g energyStep energyMax refineFuel fuel E st
        = scanWith (fun E' => integrate M mass E' V g)
            (fun lo hi => refine M mass tolerance isRel lo hi V g refineFuel)
            (fun psi => normalize M nm psi g.getDx) energyStep energyMax fuel E st) ∧
    (∀ (fuel : ℕ) (E : K) (st : ScanState K),
      symScanLoop M mass energyTolerance nm V g parity energyStep energyMax
          refineFuel fuel E st
        = scanWith (fun E' => integrateFromCenter mass E' V g parity)
            (fun lo hi => refineEnergySymmetric mass lo hi V g parity
              energyTolerance refineFuel)
            (fun psi => normalize M nm psi g.getDx) energyStep energyMax fuel E st) ∧
    (findBoundStates M mass energyTolerance nm V g energyMin energyMax scanFuel refineFuel
      = (scanWith (fun E' => integrate M mass E' V g)
          (fun lo hi => refine M mass (energyTolerance.getD (1 / 10 ^ 4))
            energyTolerance.isNone lo hi V g refineFuel)
          (fun psi => normalize M nm psi g.getDx)
          ((energyMax - energyMin) / (ENERGY_SCAN_STEPS : K)) energyMax scanFuel
          (energyMin + (energyMax - energyMin) / (ENERGY_SCAN_STEPS : K))
          ⟨[], [], msign (getEndValue (integrate M mass energyMin V g)
            (integrate M mass energyMin V g).length), energyMin⟩).map
        fun st => (st.energies, st.wavefunctions)) ∧
    (findBoundStatesSymmetric M mass energyTolerance nm V g energyMin energyMax parity
        scanFuel refineFuel
      = (scanWith (fun E' => integrateFromCenter mass E' V g parity)
          (fun lo hi => refineEnergySymmetric mass lo hi V g parity
            energyTolerance refineFuel)
          (fun psi => normalize M nm psi g.getDx)
          ((energyMax - energyMin) / 1000) energyMax scanFuel
          (energyMin + (energyMax - energyMin) / 1000)
          ⟨[], [], msign (getEndValue (integrateFromCenter mass energyMin V g parity)
            (integrateFromCenter mass energyMin V g parity).length), energyMin⟩).map
        fun st => (st.energies, st.wavefunctions)) := by
  refine ⟨rfl,
    stdScanLoop_eq_scanWith M mass tolerance isRel nm V g energyStep energyMax refineFuel,
    symScanLoop_eq_scanWith M mass energyTolerance nm V g parity energyStep energyMax
      refineFuel, ?_, ?_⟩
  · simp only [findBoundStates]
    rw [stdScanLoop_eq_scanWith]
  · simp only [findBoundStatesSymmetric]
    rw [symScanLoop_eq_scanWith]

/-- Counterexample to C7 as stated: the symmetric variant does not advance
through K = 200 increments.  At a concrete input where the end-value sign
is the constant 1 (so the loop appends nothing), the scan driven by
increments of (energyMax − energyMin)/200 finishes within 500 iterations,
but `findBoundStatesSymmetric` does not — it needs its actual 1000
iterations and exhausts the 500 available, returning `none`. -/
theorem symmetric_scan_steps_counterexample :
    findBoundStatesSymmetric ratMathModel 0 none .trapezoidal [(0 : ℚ), 0] ⟨0, 1, 2⟩
        0 1 .symmetric 500 0
      ≠ (scanWith
          (fun E' => integrateFromCenter (0 : ℚ) E' [(0 : ℚ), 0] ⟨0, 1, 2⟩ .symmetric)
          (fun lo hi => refineEnergySymmetric (0 : ℚ) lo hi [(0 : ℚ), 0] ⟨0, 1, 2⟩
            .symmetric none 0)
          (fun psi => normalize ratMathModel .trapezoidal psi (XGrid.getDx ⟨0, 1, 2⟩))
          (((1 : ℚ) - 0) / (ENERGY_SCAN_STEPS : ℚ)) 1 500
          (0 + ((1 : ℚ) - 0) / (ENERGY_SCAN_STEPS : ℚ))
          ⟨[], [], msign (getEndValue
              (integrateFromCenter (0 : ℚ) 0 [(0 : ℚ), 0] ⟨0, 1, 2⟩ .symmetric)
              (integrateFromCenter (0 : ℚ) 0 [(0 : ℚ), 0] ⟨0, 1, 2⟩ .symmetric).length),
            0⟩).map
        fun st => (st.energies, st.wavefunctions) := by
  have hend : ∀ E' : ℚ, integrateFromCenter (0 : ℚ) E' [(0 : ℚ), 0] ⟨0, 1, 2⟩ .symmetric
      = [1, 1] := by
    intro E'
    norm_num [integrateFromCenter, symIntegrateForward, calculateK2,
      calculateNumerovFactors, XGrid.getDx, XGrid.getLength, XGrid.findCenterIndex,
      jsRound, HBAR, List.range_succ]
  have hsign : ∀ E' : ℚ, msign (getEndValue
      (integrateFromCenter (0 : ℚ) E' [(0 : ℚ), 0] ⟨0, 1, 2⟩ .symmetric)
      (integrateFromCenter (0 : ℚ) E' [(0 : ℚ), 0] ⟨0, 1, 2⟩ .symmetric).length) = 1 := by
    intro E'
    rw [hend E']
    norm_num [getEndValue, msign]
  have hlhs : findBoundStatesSymmetric ratMathModel 0 none .trapezoidal [(0 : ℚ), 0]
      ⟨0, 1, 2⟩ 0 1 .symmetric 500 0 = none := by
    simp only [findBoundStatesSymmetric]
    rw [symScanLoop_eq_scanWith]
    rw [scanWith_fuel_exhausted _ _ _ _ _ (by norm_num) 500 _ _ (by push_cast; norm_num)]
    rfl
  have hrhs := scanWith_no_flip_completes
    (fun E' => integrateFromCenter (0 : ℚ) E' [(0 : ℚ), 0] ⟨0, 1, 2⟩ .symmetric)
    (fun lo hi => refineEnergySymmetric (0 : ℚ) lo hi [(0 : ℚ), 0] ⟨0, 1, 2⟩
      .symmetric none 0)
    (fun psi => normalize ratMathModel .trapezoidal psi (XGrid.getDx ⟨0, 1, 2⟩))
    (((1 : ℚ) - 0) / (ENERGY_SCAN_STEPS : ℚ)) 1 1
    (by norm_num [ENERGY_SCAN_STEPS]) 500
    (0 + ((1 : ℚ) - 0) / (ENERGY_SCAN_STEPS : ℚ))
    ⟨[], [], msign (getEndValue
        (integrateFromCenter (0 : ℚ) 0 [(0 : ℚ), 0] ⟨0, 1, 2⟩ .symmetric)
        (integrateFromCenter (0 : ℚ) 0 [(0 : ℚ), 0] ⟨0, 1, 2⟩ .symmetric).length), 0⟩
    (fun E' _ _ => Or.inr (hsign E'))
    (Or.inr (hsign 0))
    ⟨201, by norm_num, by push_cast; norm_num [ENERGY_SCAN_STEPS]⟩
  obtain ⟨st', hst', _, _⟩ := hrhs
  rw [hlhs, hst']
  simp

end QBS
